import Mathlib

/-!
Verification of the ETL core of the feedback-plugin backend
(`src/feedback_plugin/data_processing/etl.py`).

The Django ORM is modelled as an explicit database state (`DB`) holding the
rows of each relation as a list, together with auto-increment counters for
primary keys.  Datetimes are modelled as `Int` seconds (the code only ever
compares them, subtracts `timedelta(seconds=1)` and adds 24-hour slices).
Fact values (which in the code are either strings or datetimes) are modelled
by the sum type `Val`.
-/

namespace FeedbackPlugin

/-- Fact values stored in `ComputedServerFact.value` / `ComputedUploadFact.value`:
either a string (e.g. a country code or a uid) or a datetime. -/
inductive Val : Type where
  | str : String → Val
  | time : Int → Val
deriving DecidableEq, Repr

/-- A row of the `RawData` relation: a pending raw upload.
`data` is the uploaded blob, already decoded from UTF-8. -/
structure RawData where
  id : Nat
  upload_time : Int
  country : String
  data : String
deriving DecidableEq, Repr

/-- A row of the `Server` relation. -/
structure Server where
  id : Nat
deriving DecidableEq, Repr

/-- A row of the `Upload` relation. -/
structure Upload where
  id : Nat
  upload_time : Int
  server_id : Nat
deriving DecidableEq, Repr

/-- A row of the `Data` relation: one key/value pair of one upload. -/
structure Data where
  upload_id : Nat
  key : String
  value : String
deriving DecidableEq, Repr

/-- A row of the `ComputedServerFact` relation. -/
structure ComputedServerFact where
  id : Nat
  server_id : Nat
  key : String
  value : Val
deriving DecidableEq, Repr

/-- A row of the `ComputedUploadFact` relation. -/
structure ComputedUploadFact where
  id : Nat
  upload_id : Nat
  key : String
  value : Val
deriving DecidableEq, Repr

/-- A row of the `UploadData` relation (the pivoted per-upload document);
`upload_json` is the key/value mapping, as an insertion-ordered dictionary. -/
structure UploadData where
  upload_id : Nat
  upload_json : List (String × String)
deriving DecidableEq, Repr

/-- The database state. -/
structure DB where
  rawData : List RawData
  servers : List Server
  uploads : List Upload
  data : List Data
  serverFacts : List ComputedServerFact
  uploadFacts : List ComputedUploadFact
  uploadData : List UploadData
  nextServerId : Nat
  nextUploadId : Nat
  nextServerFactId : Nat
  nextUploadFactId : Nat
deriving DecidableEq, Repr

def emptyDB : DB :=
  { rawData := [], servers := [], uploads := [], data := [],
    serverFacts := [], uploadFacts := [], uploadData := [],
    nextServerId := 0, nextUploadId := 0,
    nextServerFactId := 0, nextUploadFactId := 0 }

/-! ### Python dictionaries

`dict` assignment `d[k] = v` replaces the value of an existing key in place
(keeping insertion order) and otherwise appends the new key at the end. -/

/-- Dictionary lookup `d[k]` / `d.get(k)` (first matching key; keys of a
well-formed dictionary are unique). -/
def dictGet? {α β : Type} [DecidableEq α] : List (α × β) → α → Option β
  | [], _ => none
  | p :: rest, k => if p.1 = k then some p.2 else dictGet? rest k

/-- Dictionary assignment `d[k] = v`. -/
def dictSet {α β : Type} [DecidableEq α] (m : List (α × β)) (k : α) (v : β) :
    List (α × β) :=
  if (dictGet? m k).isSome then
    m.map (fun p => if p.1 = k then (k, v) else p)
  else
    m ++ [(k, v)]

/-- Dictionary lookup with a default (`d.get(k, dflt)` /
`defaultdict` materialization). -/
def dictGetD {α β : Type} [DecidableEq α] (m : List (α × β)) (k : α) (dflt : β) : β :=
  (dictGet? m k).getD dflt

/-! ### Raw record parsing (`process_from_date`, lines 34-53)

The blob is decoded, NUL characters are removed
(`.replace('\x00', '')`), and the result is fed to
`csv.reader(StringIO(...), delimiter='\t')`.  The reader is modelled by the
state machine of `parse_process_char` in CPython's `_csv.c`, restricted to
the default `excel` dialect with a tab delimiter: quote character `"`,
`doublequote=True`, no escape character, `QUOTE_MINIMAL`, non-strict.
Rows end at `\n`, `\r` or `\r\n`; a quoted field may contain delimiters and
row terminators, a doubled quote inside a quoted field is a literal quote,
and a bare `\r` followed by an ordinary character raises `csv.Error`
("new-line character seen in unquoted field"), which aborts the caller's
iteration after the preceding complete rows have been yielded. -/

/-- Split a character list at every occurrence of `sep`
(n separators yield n+1 pieces, like Python's `str.split(sep)`). -/
def splitChar (sep : Char) : List Char → List (List Char)
  | [] => [[]]
  | c :: cs =>
    let r := splitChar sep cs
    if c = sep then [] :: r
    else (c :: r.headD []) :: r.tail

/-- `str.replace('\x00', '')`: removes every NUL character. -/
def stripNul (s : String) : String :=
  ⟨s.data.filter (fun c => c ≠ '\x00')⟩

/-- The parser states of `parse_process_char` (CPython `_csv.c`) that are
reachable under the default dialect (no escape character). -/
inductive CsvState
  | startRecord
  | startField
  | inField
  | inQuotedField
  | quoteInQuotedField
  | eatCrnl

/-- Run the csv reader over the NUL-stripped character stream, from state
`st` with the pending field `field` and the pending record `fields`:
returns the records yielded in order, paired with `true` when the reader
then raises `csv.Error` (an ordinary character following a bare `\r`).
The in-progress record is discarded on the error; at end of input a pending
field or record is completed and yielded (the `'\0'` / end-of-input handling
of `Reader_iternext`). -/
def csvRun : List Char → CsvState → List Char → List String →
    List (List String) × Bool
  | [], st, field, fields =>
    match st with
    | .startRecord => ([], false)
    | .eatCrnl => ([fields], false)
    | _ => ([fields ++ [String.mk field]], false)
  | c :: cs, .startRecord, _, _ =>
    if c = '\n' then
      let r := csvRun cs .startRecord [] []
      ([] :: r.1, r.2)
    else if c = '\r' then csvRun cs .eatCrnl [] []
    else if c = '"' then csvRun cs .inQuotedField [] []
    else if c = '\t' then csvRun cs .startField [] [""]
    else csvRun cs .inField [c] []
  | c :: cs, .startField, _, fields =>
    if c = '\n' then
      let r := csvRun cs .startRecord [] []
      ((fields ++ [""]) :: r.1, r.2)
    else if c = '\r' then csvRun cs .eatCrnl [] (fields ++ [""])
    else if c = '"' then csvRun cs .inQuotedField [] fields
    else if c = '\t' then csvRun cs .startField [] (fields ++ [""])
    else csvRun cs .inField [c] fields
  | c :: cs, .inField, field, fields =>
    if c = '\n' then
      let r := csvRun cs .startRecord [] []
      ((fields ++ [String.mk field]) :: r.1, r.2)
    else if c = '\r' then csvRun cs .eatCrnl [] (fields ++ [String.mk field])
    else if c = '\t' then csvRun cs .startField [] (fields ++ [String.mk field])
    else csvRun cs .inField (field ++ [c]) fields
  | c :: cs, .inQuotedField, field, fields =>
    if c = '"' then csvRun cs .quoteInQuotedField field fields
    else csvRun cs .inQuotedField (field ++ [c]) fields
  | c :: cs, .quoteInQuotedField, field, fields =>
    if c = '"' then csvRun cs .inQuotedField (field ++ ['"']) fields
    else if c = '\t' then csvRun cs .startField [] (fields ++ [String.mk field])
    else if c = '\n' then
      let r := csvRun cs .startRecord [] []
      ((fields ++ [String.mk field]) :: r.1, r.2)
    else if c = '\r' then csvRun cs .eatCrnl [] (fields ++ [String.mk field])
    else csvRun cs .inField (field ++ [c]) fields
  | c :: cs, .eatCrnl, field, fields =>
    if c = '\n' then
      let r := csvRun cs .startRecord [] []
      (fields :: r.1, r.2)
    else if c = '\r' then csvRun cs .eatCrnl field fields
    else ([], true)

/-- All rows the `csv.reader` yields for one raw blob (the complete records
produced before end of input or before a `csv.Error`). -/
def readerRows (blob : String) : List (List String) :=
  (csvRun (stripNul blob).data .startRecord [] []).1

/-- Whether iterating the csv reader over the blob ends in a `csv.Error`
(raised only after all rows of `readerRows` have been yielded). -/
def readerError (blob : String) : Bool :=
  (csvRun (stripNul blob).data .startRecord [] []).2

/-- The lines of the blob — split on newline, a trailing newline producing
no extra empty line — written from the claim's words ("any line that does
not split into exactly two tab-separated fields"), for comparison with the
rows the csv reader actually yields. -/
def specLines (s : String) : List (List Char) :=
  if s.data = [] then []
  else
    let parts := splitChar '\n' s.data
    if s.data.getLast? = some '\n' then parts.dropLast else parts

/-- The parsing loop of `process_from_date` (lines 39-49): accumulates the
ordered `values` list (one entry per row) and the flat `data` dictionary
(last occurrence of a key wins); a row that is not exactly a key/value pair
sets `errored` and aborts, which we model as `none`. -/
def parseLoop : List (List String) → List (String × String) →
    List (String × String) → Option (List (String × String) × List (String × String))
  | [], values, data => some (values, data)
  | [k, v] :: rest, values, data =>
      parseLoop rest (values ++ [(k, v)]) (dictSet data k v)
  | [] :: _, _, _ => none
  | [_] :: _, _, _ => none
  | (_ :: _ :: _ :: _) :: _, _, _ => none

/-- Parse one raw blob: `none` models `errored = True`. -/
def parseRawUpload (blob : String) : Option (List (String × String) × List (String × String)) :=
  parseLoop (readerRows blob) [] []

/-! ### Bulk storage operations

`bulk_create` assigns fresh auto-increment primary keys;
`bulk_update(objs, ['value'])` writes the `value` column of the rows whose
primary key matches one of the passed objects. -/

/-- `bulk_create` assigns consecutive fresh primary keys starting at `next`. -/
def assignServerFactIds (next : Nat) : List ComputedServerFact → List ComputedServerFact
  | [] => []
  | f :: rest => { f with id := next } :: assignServerFactIds (next + 1) rest

def bulkCreateServerFacts (facts : List ComputedServerFact) (db : DB) : DB :=
  { db with
    serverFacts := db.serverFacts ++ assignServerFactIds db.nextServerFactId facts,
    nextServerFactId := db.nextServerFactId + facts.length }

def bulkUpdateServerFacts (facts : List ComputedServerFact) (db : DB) : DB :=
  { db with
    serverFacts := db.serverFacts.map (fun f =>
      match facts.find? (fun g => g.id = f.id) with
      | some g => { f with value := g.value }
      | none => f) }

/-- `bulk_create` assigns consecutive fresh primary keys starting at `next`. -/
def assignUploadFactIds (next : Nat) : List ComputedUploadFact → List ComputedUploadFact
  | [] => []
  | f :: rest => { f with id := next } :: assignUploadFactIds (next + 1) rest

def bulkCreateUploadFacts (facts : List ComputedUploadFact) (db : DB) : DB :=
  { db with
    uploadFacts := db.uploadFacts ++ assignUploadFactIds db.nextUploadFactId facts,
    nextUploadFactId := db.nextUploadFactId + facts.length }

def bulkUpdateUploadFacts (facts : List ComputedUploadFact) (db : DB) : DB :=
  { db with
    uploadFacts := db.uploadFacts.map (fun f =>
      match facts.find? (fun g => g.id = f.id) with
      | some g => { f with value := g.value }
      | none => f) }

/-- `raw_upload.delete()`: removes the row (by primary key) from `RawData`. -/
def deleteRaw (raw : RawData) (db : DB) : DB :=
  { db with rawData := db.rawData.filter (fun r => r.id ≠ raw.id) }

/-! ### Per-record ingestion (`process_from_date`, loop body, lines 30-122) -/

/-- `get_fact_by_key` (lines 85-94): look up the server fact for `(key, server)`;
if present return it with its value overwritten (`False` = update path),
otherwise a fresh fact object (`True` = create path). -/
def get_fact_by_key (key : String) (serverId : Nat) (value : Val) (db : DB) :
    Bool × ComputedServerFact :=
  match db.serverFacts.find? (fun f => f.key = key ∧ f.server_id = serverId) with
  | some f => (false, { f with value := value })
  | none => (true, { id := 0, server_id := serverId, key := key, value := value })

/-- Lines 83-122: upsert the three per-server facts (`first_seen` is dropped
from the batch when it already exists), then create the `Upload` row and one
`Data` row per parsed pair, and delete the raw upload. -/
def ingestAccepted (raw : RawData) (values : List (String × String))
    (serverId : Nat) (db : DB) : DB :=
  let f1 := get_fact_by_key "country_code" serverId (Val.str raw.country) db
  let f2 := get_fact_by_key "last_seen" serverId (Val.time raw.upload_time) db
  let f3 := get_fact_by_key "first_seen" serverId (Val.time raw.upload_time) db
  let srv_facts := if f3.1 = false then [f1, f2] else [f1, f2, f3]
  let srv_facts_create := (srv_facts.filter (fun x => x.1)).map (fun x => x.2)
  let srv_facts_update := (srv_facts.filter (fun x => !x.1)).map (fun x => x.2)
  let db1 : DB := bulkUpdateServerFacts srv_facts_update
    (bulkCreateServerFacts srv_facts_create db)
  let uploadId := db1.nextUploadId
  let db2 : DB := { db1 with
    uploads := db1.uploads ++ [{ id := uploadId, upload_time := raw.upload_time,
                                 server_id := serverId }],
    nextUploadId := db1.nextUploadId + 1 }
  let db3 : DB := { db2 with
    data := db2.data ++ values.map (fun p =>
      { upload_id := uploadId, key := p.1, value := p.2 }) }
  deleteRaw raw db3

/-- The body of the raw-upload loop of `process_from_date` (lines 30-122):
parse, admission checks, identity resolution, fact upsert, Upload/Data
creation, raw deletion.  `none` models an abnormal termination of the
record's processing with no database change: either the `assert False`
abort of the fact-without-server branch (lines 78-81) or an uncaught
`csv.Error` raised by the row loop (line 42) — the latter only after every
yielded row passed the pair check, since a bad row breaks out of the loop
before the reader parses further. -/
def process_one_raw (raw : RawData) (db : DB) : Option DB :=
  match parseRawUpload raw.data with
  | none => some (deleteRaw raw db)
  | some (values, data) =>
    if readerError raw.data then none
    else
    match dictGet? data "FEEDBACK_SERVER_UID" with
    | none => some (deleteRaw raw db)
    | some uid =>
      if uid.length = 0 then some (deleteRaw raw db)
      else if dictGet? data "FEEDBACK_USER_INFO" = some "mysql-test" then
        some (deleteRaw raw db)
      else
        match db.serverFacts.find? (fun f => f.key = "uid" ∧ f.value = Val.str uid) with
        | some srv_uid_fact =>
          match db.servers.find? (fun s => s.id = srv_uid_fact.server_id) with
          | some server => some (ingestAccepted raw values server.id db)
          | none => none
        | none =>
          let serverId := db.nextServerId
          let dbA : DB := { db with
            servers := db.servers ++ [{ id := serverId }],
            nextServerId := db.nextServerId + 1 }
          let dbB : DB := { dbA with
            serverFacts := dbA.serverFacts ++
              [{ id := dbA.nextServerFactId, server_id := serverId,
                 key := "uid", value := Val.str uid }],
            nextServerFactId := dbA.nextServerFactId + 1 }
          some (ingestAccepted raw values serverId dbB)

/-- Stable insertion of a raw upload into a list sorted by `upload_time`
(model of the `order_by('upload_time')` result order; ties keep the stored
order). -/
def insertByTime (r : RawData) : List RawData → List RawData
  | [] => [r]
  | x :: xs => if x.upload_time ≤ r.upload_time then x :: insertByTime r xs
               else r :: x :: xs

/-- Sort raw uploads ascending by `upload_time` (stable). -/
def sortByUploadTime (l : List RawData) : List RawData :=
  l.foldl (fun acc r => insertByTime r acc) []

/-- The queryset of `process_from_date` (lines 25-28):
`upload_time__gt=start_date, upload_time__lte=end_date`, ascending. -/
def processBatch (start_date end_date : Int) (db : DB) : List RawData :=
  sortByUploadTime (db.rawData.filter (fun r =>
    start_date < r.upload_time ∧ r.upload_time ≤ end_date))

/-- `process_from_date` (lines 24-122). -/
def process_from_date (start_date end_date : Int) (db : DB) : Option DB :=
  (processBatch start_date end_date db).foldlM (fun d raw => process_one_raw raw d) db

/-! ### The windowed ingestion driver (`process_raw_data`, lines 126-150) -/

/-- The `while start_date <= end_date` loop of `process_raw_data`
(lines 141-148): each iteration processes the slice
`process_from_date(start_date, start_date + 24h)` and advances `start_date`
by 24 hours (86400 seconds). -/
def processWindows (start_date end_date : Int) (db : DB) : Option DB :=
  if start_date ≤ end_date then
    match process_from_date start_date (start_date + 86400) db with
    | none => none
    | some db1 => processWindows (start_date + 86400) end_date db1
  else some db
termination_by (end_date + 86400 - start_date).toNat
decreasing_by
  omega

/-- The sequence of window start times the loop iterates over. -/
def windowStarts (start_date end_date : Int) : List Int :=
  if start_date ≤ end_date then
    start_date :: windowStarts (start_date + 86400) end_date
  else []
termination_by (end_date + 86400 - start_date).toNat
decreasing_by
  omega

/-- The `upload_time` of `RawData.objects.order_by('upload_time').first()`:
the minimum pending upload time, `none` when no raw uploads are pending. -/
def minUploadTime? : List RawData → Option Int
  | [] => none
  | r :: rest =>
    some (match minUploadTime? rest with
          | none => r.upload_time
          | some m => min r.upload_time m)

/-- The `upload_time` of `RawData.objects.order_by('-upload_time').first()`:
the maximum pending upload time. -/
def maxUploadTime? : List RawData → Option Int
  | [] => none
  | r :: rest =>
    some (match maxUploadTime? rest with
          | none => r.upload_time
          | some m => max r.upload_time m)

/-- `process_raw_data` (lines 126-150): no pending raw uploads is a no-op,
otherwise process 24-hour slices from the minimum pending `upload_time`
minus one second up to (and covering) the maximum pending `upload_time`. -/
def process_raw_data (db : DB) : Option DB :=
  match minUploadTime? db.rawData, maxUploadTime? db.rawData with
  | some mn, some mx => processWindows (mn - 1) mx db
  | _, _ => some db

/-! ### Extraction query layer (`get_upload_data_for_data_extractors`,
lines 158-190) -/

/-- The part of a data extractor the query layer consumes:
its `get_required_keys()` result. -/
structure DataExtractor where
  required_keys : List String
deriving DecidableEq, Repr

/-- The union of the extractors' required keys (lines 163-165; only
membership matters downstream). -/
def requiredKeys (data_extractors : List DataExtractor) : List String :=
  (data_extractors.map (fun e => e.required_keys)).flatten

/-- Python's `str.lower()` on the ASCII keys this data model carries
(applied character by character). -/
def lowerStr (s : String) : String :=
  ⟨s.data.map Char.toLower⟩

/-- The key filter of lines 166-168: `key_filter = Q()` grown with
`key_filter |= Q(key__iexact=key)` per required key.  Django's empty `Q()`
is the identity filter — combined into the final query with `&` it imposes
no constraint, so with no required keys every row passes; otherwise the
filter is the case-insensitive disjunction of the keys. -/
def matchesKeyFilter (keys : List String) (dkey : String) : Bool :=
  keys.isEmpty || keys.any (fun k => lowerStr dkey = lowerStr k)

/-- The date filter (lines 170-174): `upload_time >= start_date` always,
and `<= end_date` when `end_inclusive` else `< end_date`. -/
def inDateRange (start_date end_date : Int) (end_inclusive : Bool) (t : Int) : Bool :=
  decide (start_date ≤ t) &&
    (if end_inclusive then decide (t ≤ end_date) else decide (t < end_date))

/-- The owning upload of a data row (the `data.upload` join).  The queryset
joins `Data` to `Upload` and `Server`, so rows without an owning upload or
server do not appear. -/
def owningUpload (db : DB) (d : Data) : Option Upload :=
  db.uploads.find? (fun u => u.id = d.upload_id)

/-- Whether a data row survives the queryset's joins and filters. -/
def dataRowSelected (db : DB) (start_date end_date : Int) (keys : List String)
    (end_inclusive : Bool) (d : Data) : Bool :=
  match owningUpload db d with
  | some u =>
    db.servers.any (fun s => s.id = u.server_id) &&
      inDateRange start_date end_date end_inclusive u.upload_time &&
      matchesKeyFilter keys d.key
  | none => false

/-- One iteration of the grouping loop (lines 182-188):
`servers[server_id][upload_id][data.key.lower()].append(data.value)`.
The three-level grouping is modelled as a function
`server_id → upload_id → key → list of values`. -/
def groupStep (db : DB) (acc : Nat → Nat → String → List String) (d : Data) :
    Nat → Nat → String → List String :=
  match owningUpload db d with
  | some u => fun s up k =>
      if s = u.server_id ∧ up = d.upload_id ∧ k = lowerStr d.key then
        acc s up k ++ [d.value]
      else acc s up k
  | none => acc

/-- `get_upload_data_for_data_extractors` (lines 158-190). -/
def get_upload_data_for_data_extractors (start_date end_date : Int)
    (data_extractors : List DataExtractor) (end_inclusive : Bool) (db : DB) :
    Nat → Nat → String → List String :=
  let keys := requiredKeys data_extractors
  let data_to_process := db.data.filter
    (dataRowSelected db start_date end_date keys end_inclusive)
  data_to_process.foldl (groupStep db) (fun _ _ _ => [])

/-! ### Server-fact reconciliation (`extract_server_facts`, lines 196-257)

The extractors themselves and `combine_server_facts` /
`combine_upload_facts` live in the external `extractors` module (not part of
this repository's source under verification), so the reconciliation is
modelled as a function of the already-combined fact mapping
`facts : server_id → key → value`, represented as a dictionary of
dictionaries exactly as in the Python code. -/

/-- A fresh (unsaved) `ComputedServerFact(key=..., value=..., server_id=...)`. -/
def mkServerFact (server_id : Nat) (key : String) (value : Val) : ComputedServerFact :=
  { id := 0, server_id := server_id, key := key, value := value }

/-- The rearrangement loop (lines 209-212): `facts_by_key[key][server_id] = v`. -/
def factsByKey (facts : List (Nat × List (String × Val))) :
    List (String × List (Nat × Val)) :=
  facts.foldl (fun acc sf =>
    sf.2.foldl (fun acc2 kv =>
      dictSet acc2 kv.1 (dictSet (dictGetD acc2 kv.1 []) sf.1 kv.2)) acc) []

/-- The per-key create/update planning loop (lines 241-252): for each server
with a computed fact for this key, update the existing row if present in the
database, otherwise create a fresh one. -/
def serverKeyPlan (key : String) (vals : List (Nat × Val))
    (in_db : List (Nat × ComputedServerFact)) :
    List ComputedServerFact × List ComputedServerFact :=
  (vals.map (fun p => p.1)).foldl (fun cu s_id =>
    match dictGet? vals s_id with
    | some fact_value =>
      match dictGet? in_db s_id with
      | some f => (cu.1, cu.2 ++ [{ f with value := fact_value }])
      | none => (cu.1 ++ [mkServerFact s_id key fact_value], cu.2)
    | none => cu) ([], [])

/-- The body of the per-key loop of `extract_server_facts` (lines 215-257):
one query for the existing facts of this key over the relevant servers, a
dictionary of them by server id, the create/update plan, then one
`bulk_create` and one `bulk_update`. -/
def reconcileServerKey (key : String) (vals : List (Nat × Val)) (db : DB) : DB :=
  let servers_with := vals.map (fun p => p.1)
  let facts_already := db.serverFacts.filter (fun f =>
    servers_with.contains f.server_id ∧ f.key = key)
  let in_db := facts_already.foldl (fun m f => dictSet m f.server_id f)
    ([] : List (Nat × ComputedServerFact))
  let cu := serverKeyPlan key vals in_db
  bulkUpdateServerFacts cu.2 (bulkCreateServerFacts cu.1 db)

/-- `extract_server_facts` (lines 196-257), as a function of the combined
extractor output. -/
def extract_server_facts (facts : List (Nat × List (String × Val))) (db : DB) : DB :=
  (factsByKey facts).foldl (fun d kv => reconcileServerKey kv.1 kv.2 d) db

/-! ### Upload-fact reconciliation (`extract_upload_facts`, lines 260-309) -/

/-- `check_if_upload_fact_exists` (lines 260-265). -/
def check_if_upload_fact_exists (key : String) (upload_id : Nat) (db : DB) :
    Option ComputedUploadFact :=
  db.uploadFacts.find? (fun f => f.key = key ∧ f.upload_id = upload_id)

/-- A fresh (unsaved) `ComputedUploadFact(key=..., value=..., upload_id=...)`. -/
def mkUploadFact (upload_id : Nat) (key : String) (value : Val) : ComputedUploadFact :=
  { id := 0, upload_id := upload_id, key := key, value := value }

/-- The triple loop of `extract_upload_facts` (lines 286-303), building the
create and update lists; every existence check runs against the database
state before any write. -/
def uploadFactsPlan (facts : List (Nat × List (Nat × List (String × Val)))) (db : DB) :
    List ComputedUploadFact × List ComputedUploadFact :=
  facts.foldl (fun acc sf =>
    sf.2.foldl (fun acc2 uf =>
      uf.2.foldl (fun acc3 kv =>
        match check_if_upload_fact_exists kv.1 uf.1 db with
        | none => (acc3.1 ++ [mkUploadFact uf.1 kv.1 kv.2], acc3.2)
        | some f => (acc3.1, acc3.2 ++ [{ f with value := kv.2 }])) acc2) acc) ([], [])

/-- `extract_upload_facts` (lines 271-309), as a function of the combined
extractor output `facts : server_id → upload_id → key → value`. -/
def extract_upload_facts (facts : List (Nat × List (Nat × List (String × Val))))
    (db : DB) : DB :=
  let cu := uploadFactsPlan facts db
  bulkUpdateUploadFacts cu.2 (bulkCreateUploadFacts cu.1 db)

/-! ### Pivot projector (`pivot_data`, lines 311-324) -/

/-- One iteration of the grouping loop of `pivot_data` (line 316):
`pivot_map[row.upload_id][row.key] = row.value`. -/
def pivotStep (m : List (Nat × List (String × String))) (row : Data) :
    List (Nat × List (String × String)) :=
  dictSet m row.upload_id (dictSet (dictGetD m row.upload_id []) row.key row.value)

/-- The grouping loop of `pivot_data` (lines 313-316): all `Data` rows, no
time filter, last value wins for a duplicated key. -/
def pivotMap (rows : List Data) : List (Nat × List (String × String)) :=
  rows.foldl pivotStep []

/-- `UploadData.objects.update_or_create(upload_id=..., defaults=...)`:
replace the document of an existing row wholesale, or create the row. -/
def updateOrCreateUploadData (upload_id : Nat) (doc : List (String × String))
    (db : DB) : DB :=
  if db.uploadData.any (fun ud => ud.upload_id = upload_id) then
    { db with uploadData := db.uploadData.map (fun ud =>
        if ud.upload_id = upload_id then { ud with upload_json := doc } else ud) }
  else
    { db with uploadData := db.uploadData ++ [{ upload_id := upload_id, upload_json := doc }] }

/-- `pivot_data` (lines 311-324). -/
def pivot_data (db : DB) : DB :=
  (pivotMap db.data).foldl (fun d p => updateOrCreateUploadData p.1 p.2 d) db

/-! ## Dictionary lemmas -/

theorem dictGet?_append {α β : Type} [DecidableEq α] (m1 m2 : List (α × β)) (k : α) :
    dictGet? (m1 ++ m2) k = (dictGet? m1 k).or (dictGet? m2 k) := by
  induction m1 with
  | nil => simp [dictGet?]
  | cons p rest ih =>
    simp only [List.cons_append, dictGet?]
    split
    · rfl
    · exact ih

theorem dictGet?_mapSet_self {α β : Type} [DecidableEq α] (m : List (α × β)) (k : α) (v : β) :
    dictGet? (m.map (fun p => if p.1 = k then (k, v) else p)) k =
      if (dictGet? m k).isSome then some v else none := by
  induction m with
  | nil => simp [dictGet?]
  | cons p rest ih =>
    by_cases h : p.1 = k
    · simp [dictGet?, h]
    · simp only [List.map_cons, if_neg h, dictGet?, ih, if_neg h]

theorem dictGet?_mapSet_ne {α β : Type} [DecidableEq α] (m : List (α × β)) (k k' : α)
    (v : β) (hne : k' ≠ k) :
    dictGet? (m.map (fun p => if p.1 = k then (k, v) else p)) k' = dictGet? m k' := by
  induction m with
  | nil => rfl
  | cons p rest ih =>
    by_cases h : p.1 = k
    · have : ¬ (k = k') := fun he => hne he.symm
      simp [dictGet?, h, this, ih, fun he : p.1 = k' => hne (he ▸ h ▸ rfl)]
    · simp only [List.map_cons, if_neg h, dictGet?]
      split
      · rfl
      · exact ih

theorem dictGet?_dictSet_self {α β : Type} [DecidableEq α] (m : List (α × β)) (k : α) (v : β) :
    dictGet? (dictSet m k v) k = some v := by
  unfold dictSet
  split
  · rw [dictGet?_mapSet_self]
    simp_all
  · rw [dictGet?_append]
    rename_i h
    simp only [Option.isSome] at h
    rcases hk : dictGet? m k with _ | w
    · simp [Option.or, dictGet?]
    · rw [hk] at h; simp at h

theorem dictGet?_dictSet_ne {α β : Type} [DecidableEq α] (m : List (α × β)) (k k' : α)
    (v : β) (hne : k' ≠ k) :
    dictGet? (dictSet m k v) k' = dictGet? m k' := by
  unfold dictSet
  split
  · exact dictGet?_mapSet_ne m k k' v hne
  · rw [dictGet?_append]
    have hkk : ¬ (k = k') := fun h => hne h.symm
    have hsing : dictGet? [(k, v)] k' = none := by
      simp [dictGet?, hkk]
    rw [hsing]
    cases dictGet? m k' <;> rfl

theorem dictGet?_eq_some_mem {α β : Type} [DecidableEq α] {m : List (α × β)} {k : α} {v : β}
    (h : dictGet? m k = some v) : (k, v) ∈ m := by
  induction m with
  | nil => simp [dictGet?] at h
  | cons p rest ih =>
    obtain ⟨p1, p2⟩ := p
    by_cases he : p1 = k
    · subst he
      simp only [dictGet?, if_pos] at h
      obtain rfl := Option.some.inj h
      exact List.mem_cons_self _ _
    · rw [dictGet?, if_neg he] at h
      exact List.mem_cons_of_mem _ (ih h)

theorem mem_dictGet?_of_nodup {α β : Type} [DecidableEq α] {m : List (α × β)} {k : α} {v : β}
    (hnd : (m.map Prod.fst).Nodup) (h : (k, v) ∈ m) : dictGet? m k = some v := by
  induction m with
  | nil => simp at h
  | cons p rest ih =>
    simp only [List.map_cons, List.nodup_cons] at hnd
    rcases List.mem_cons.mp h with h | h
    · rw [← h, dictGet?, if_pos rfl]
    · rw [dictGet?]
      split
      · rename_i he
        exfalso
        exact hnd.1 (he ▸ (List.mem_map.mpr ⟨(k, v), h, rfl⟩))
      · exact ih hnd.2 h

theorem isSome_dictGet?_of_mem_keys {α β : Type} [DecidableEq α] {m : List (α × β)} {k : α}
    (h : k ∈ m.map Prod.fst) : (dictGet? m k).isSome := by
  induction m with
  | nil => simp at h
  | cons p rest ih =>
    rw [List.map_cons] at h
    rcases List.mem_cons.mp h with h | h
    · rw [dictGet?, if_pos h.symm]; rfl
    · rw [dictGet?]
      split
      · rfl
      · exact ih h

theorem keys_dictSet {α β : Type} [DecidableEq α] (m : List (α × β)) (k : α) (v : β) :
    (dictSet m k v).map Prod.fst =
      if (dictGet? m k).isSome then m.map Prod.fst else m.map Prod.fst ++ [k] := by
  unfold dictSet
  split
  · rw [List.map_map]
    refine List.map_congr_left ?_
    intro p _
    by_cases hp : p.1 = k
    · simp [hp]
    · simp [hp]
  · rw [List.map_append]
    rfl

theorem nodup_keys_dictSet {α β : Type} [DecidableEq α] (m : List (α × β)) (k : α) (v : β)
    (hnd : (m.map Prod.fst).Nodup) : ((dictSet m k v).map Prod.fst).Nodup := by
  rw [keys_dictSet]
  split
  · exact hnd
  · rename_i h
    have hk : k ∉ m.map Prod.fst := fun hmem => h (isSome_dictGet?_of_mem_keys hmem)
    simp [List.nodup_append, hnd, hk]

/-! ## Parsing lemmas -/

theorem getLast?_isSome_of_ne_nil {α : Type} (l : List α) (h : l ≠ []) :
    l.getLast?.isSome := by
  induction l with
  | nil => exact absurd rfl h
  | cons a l ih =>
    cases l with
    | nil => rfl
    | cons b l => rw [List.getLast?_cons_cons]; exact ih (by simp)

theorem getLast?_cons_or {α : Type} (a : α) (l : List α) :
    (a :: l).getLast? = l.getLast?.or (some a) := by
  cases l with
  | nil => rfl
  | cons b l =>
    rw [List.getLast?_cons_cons]
    have h : ((b :: l).getLast?).isSome := getLast?_isSome_of_ne_nil _ (by simp)
    cases hx : (b :: l).getLast? with
    | none => rw [hx] at h; simp at h
    | some x => rfl

theorem dictGet?_foldl_dictSet {α β : Type} [DecidableEq α] (pairs : List (α × β)) :
    ∀ (d0 : List (α × β)) (k : α),
    dictGet? (pairs.foldl (fun d p => dictSet d p.1 p.2) d0) k =
      (((pairs.filter (fun p => p.1 = k)).map (fun p => p.2)).getLast?).or (dictGet? d0 k) := by
  induction pairs with
  | nil => intro d0 k; simp
  | cons p rest ih =>
    intro d0 k
    rw [List.foldl_cons, ih]
    by_cases hk : p.1 = k
    · subst hk
      rw [dictGet?_dictSet_self]
      rw [List.filter_cons_of_pos (by simp), List.map_cons, getLast?_cons_or,
        Option.or_assoc]
      rfl
    · rw [dictGet?_dictSet_ne _ _ _ _ (fun he => hk he.symm)]
      rw [List.filter_cons_of_neg (by simp [hk])]

theorem parseLoop_some {rows : List (List String)} :
    ∀ {values data values' data'},
    parseLoop rows values data = some (values', data') →
    ∃ pairs, rows = pairs.map (fun p => [p.1, p.2]) ∧
      values' = values ++ pairs ∧
      data' = pairs.foldl (fun d p => dictSet d p.1 p.2) data := by
  induction rows with
  | nil =>
    intro values data values' data' h
    rw [parseLoop] at h
    obtain ⟨h1, h2⟩ := Prod.mk.injEq _ _ _ _ ▸ Option.some.inj h
    exact ⟨[], by simp [← h1, ← h2]⟩
  | cons r rest ih =>
    intro values data values' data' h
    rcases r with _ | ⟨k, r⟩
    · rw [parseLoop] at h; cases h
    rcases r with _ | ⟨v, r⟩
    · rw [parseLoop] at h; cases h
    rcases r with _ | ⟨w, r⟩
    · rw [parseLoop] at h
      rcases ih h with ⟨pairs, hrows, hvals, hdata⟩
      refine ⟨(k, v) :: pairs, ?_, ?_, ?_⟩
      · simp [hrows]
      · simp [hvals]
      · simp [hdata]
    · rw [parseLoop] at h; cases h

theorem parseLoop_bad_row_none {rest : List (List String)} {row : List String}
    (h : row.length ≠ 2) (values data : List (String × String)) :
    parseLoop (row :: rest) values data = none := by
  rcases row with _ | ⟨k, r⟩
  · rfl
  rcases r with _ | ⟨v, r⟩
  · rfl
  rcases r with _ | ⟨w, r⟩
  · exact absurd rfl h
  · rfl

theorem parseLoop_none_of_bad {rows : List (List String)}
    (h : ∃ row ∈ rows, row.length ≠ 2) :
    ∀ values data, parseLoop rows values data = none := by
  induction rows with
  | nil => rcases h with ⟨row, hmem, _⟩; simp at hmem
  | cons r rest ih =>
    intro values data
    rcases h with ⟨row, hmem, hlen⟩
    rcases List.mem_cons.mp hmem with hr | hr
    · exact hr ▸ parseLoop_bad_row_none (hr ▸ hlen) values data
    · rcases r with _ | ⟨k, r⟩
      · rfl
      rcases r with _ | ⟨v, r⟩
      · rfl
      rcases r with _ | ⟨w, r⟩
      · rw [parseLoop]
        exact ih ⟨row, hr, hlen⟩ _ _
      · rfl

/-! ## C4: structurally malformed raw uploads are rejected -/

/-- C4 (amended): if any row the tab-delimited csv reader yields for a raw
upload's blob does not have exactly two fields, ingestion creates no Upload,
Data, Server or fact rows for it — the only change is that the raw upload is
removed from raw storage.  The criterion is the csv reader's field count
(with quote handling and `\r`/`\r\n` row terminators), not the plain
tab-split of the blob's newline-separated lines that the original claim
states. -/
theorem c4_malformed_upload_rejected (db : DB) (raw : RawData)
    (h : ∃ row ∈ readerRows raw.data, row.length ≠ 2) :
    process_one_raw raw db =
      some { db with rawData := db.rawData.filter (fun r => r.id ≠ raw.id) } := by
  have hp : parseRawUpload raw.data = none := parseLoop_none_of_bad h [] []
  rw [process_one_raw, hp]
  rfl

theorem c4_witness :
    process_one_raw ⟨1, 5, "US", "oops"⟩
        { emptyDB with rawData := [⟨1, 5, "US", "oops"⟩] } =
      some { emptyDB with
             rawData := ([⟨1, 5, "US", "oops"⟩] : List RawData).filter
               (fun r => r.id ≠ 1) } :=
  c4_malformed_upload_rejected _ _ ⟨["oops"], by decide, by decide⟩

/-- C4 counterexample: the blob
`FEEDBACK_SERVER_UID\tabc\n"x\ty"\tz` contains a line (`"x\ty"\tz`) that
does not split into exactly two tab-separated fields (it splits into
three), so the original claim demands rejection; but `csv.reader` parses
the quoted field as one field, yields the two-field row `[x\ty, z]`, and
the code accepts the upload, creating a Server, an Upload and two Data
rows. -/
theorem c4_counterexample :
    ((specLines "FEEDBACK_SERVER_UID\tabc\n\"x\ty\"\tz").any
      (fun line => (splitChar '\t' line).length ≠ 2)) = true ∧
    readerRows "FEEDBACK_SERVER_UID\tabc\n\"x\ty\"\tz" =
      [["FEEDBACK_SERVER_UID", "abc"], ["x\ty", "z"]] ∧
    ∃ db' : DB,
      process_one_raw ⟨1, 5, "US", "FEEDBACK_SERVER_UID\tabc\n\"x\ty\"\tz"⟩
        { emptyDB with
          rawData := [⟨1, 5, "US", "FEEDBACK_SERVER_UID\tabc\n\"x\ty\"\tz"⟩] } =
        some db' ∧
      db'.servers.length = 1 ∧ db'.uploads.length = 1 ∧
      db'.data.length = 2 ∧ db'.rawData = [] := by
  refine ⟨by decide, by decide, ?_⟩
  refine ⟨_, rfl, ?_, ?_, ?_, ?_⟩ <;> decide

/-! ## C5: uploads without a usable server uid, and test-marker uploads,
are rejected -/

/-- C5: a structurally well-formed raw upload (its csv parse yields only
key/value rows and raises no `csv.Error`) that lacks a non-empty
`FEEDBACK_SERVER_UID` entry, or whose `FEEDBACK_USER_INFO` entry equals
`mysql-test`, creates no Upload, Data, Server or fact rows — the only change
is that the raw upload is removed from raw storage. -/
theorem c5_unidentified_or_test_upload_rejected (db : DB) (raw : RawData)
    (values data : List (String × String))
    (hp : parseRawUpload raw.data = some (values, data))
    (herr : readerError raw.data = false)
    (h : dictGet? data "FEEDBACK_SERVER_UID" = none
       ∨ (∃ uid, dictGet? data "FEEDBACK_SERVER_UID" = some uid ∧ uid.length = 0)
       ∨ dictGet? data "FEEDBACK_USER_INFO" = some "mysql-test") :
    process_one_raw raw db =
      some { db with rawData := db.rawData.filter (fun r => r.id ≠ raw.id) } := by
  rw [process_one_raw, hp]
  simp only [herr]
  rcases h with h | ⟨uid, huid, hlen⟩ | h
  · simp only [h]
    rfl
  · simp only [huid, if_pos hlen]
    rfl
  · cases hu : dictGet? data "FEEDBACK_SERVER_UID" with
    | none => simp only [hu]; rfl
    | some uid =>
      by_cases hlen : uid.length = 0
      · simp only [hu, if_pos hlen]
        rfl
      · simp only [hu, if_neg hlen, if_pos h]
        rfl

theorem c5_witness :
    process_one_raw ⟨2, 7, "DE", "FEEDBACK_USER_INFO\tmysql-test\nFEEDBACK_SERVER_UID\tabc"⟩
        { emptyDB with
          rawData := [⟨2, 7, "DE", "FEEDBACK_USER_INFO\tmysql-test\nFEEDBACK_SERVER_UID\tabc"⟩] } =
      some { emptyDB with
             rawData := ([⟨2, 7, "DE",
               "FEEDBACK_USER_INFO\tmysql-test\nFEEDBACK_SERVER_UID\tabc"⟩] : List RawData).filter
               (fun r => r.id ≠ 2) } :=
  c5_unidentified_or_test_upload_rejected _ _
    [("FEEDBACK_USER_INFO", "mysql-test"), ("FEEDBACK_SERVER_UID", "abc")]
    [("FEEDBACK_USER_INFO", "mysql-test"), ("FEEDBACK_SERVER_UID", "abc")]
    (by decide) (by decide) (Or.inr (Or.inr (by decide)))

/-! ## C8: a uid fact whose server is missing aborts processing -/

/-- C8: during identity resolution, a stored `uid` fact whose owning server
cannot be found aborts processing of the record (the `assert False` branch,
modelled as `none`) with no change to the database; and under the invariant
that every `uid` fact references an existing server, this branch is
unreachable: for a blob whose csv parse raises no error (the only other
abnormal termination), `process_one_raw` never aborts. -/
theorem c8_missing_server_aborts :
    (∀ (db : DB) (raw : RawData) values data uid fact,
       parseRawUpload raw.data = some (values, data) →
       dictGet? data "FEEDBACK_SERVER_UID" = some uid →
       uid.length ≠ 0 →
       dictGet? data "FEEDBACK_USER_INFO" ≠ some "mysql-test" →
       db.serverFacts.find? (fun f => f.key = "uid" ∧ f.value = Val.str uid) = some fact →
       db.servers.find? (fun s => s.id = fact.server_id) = none →
       process_one_raw raw db = none) ∧
    (∀ (db : DB) (raw : RawData),
       readerError raw.data = false →
       (∀ f ∈ db.serverFacts, f.key = "uid" → ∃ s ∈ db.servers, s.id = f.server_id) →
       process_one_raw raw db ≠ none) := by
  constructor
  · intro db raw values data uid fact hp huid hlen hinfo hfact hsrv
    rw [process_one_raw, hp]
    cases herr : readerError raw.data with
    | true => rfl
    | false =>
      simp only [herr, huid, if_neg hlen, if_neg hinfo, hfact, hsrv]
      rfl
  · intro db raw herr hinv h
    rw [process_one_raw] at h
    split at h
    · cases h
    · rw [if_neg (by rw [herr]; exact Bool.false_ne_true)] at h
      split at h
      · cases h
      · split at h
        · cases h
        · split at h
          · cases h
          · split at h
            · split at h
              · cases h
              · rename_i g hfact opt srvnone
                have hmem := List.mem_of_find?_eq_some hfact
                have hpred := List.find?_some hfact
                have hkey : g.key = "uid" := (of_decide_eq_true hpred).1
                rcases hinv g hmem hkey with ⟨s, hs, hsid⟩
                have hsome : (db.servers.find? (fun s => s.id = g.server_id)).isSome :=
                  List.find?_isSome.mpr ⟨s, hs, by simp [hsid]⟩
                rw [srvnone] at hsome
                simp at hsome
            · cases h

theorem c8_witness :
    (process_one_raw ⟨3, 9, "FR", "FEEDBACK_SERVER_UID\tghost"⟩
        { emptyDB with
          serverFacts := [⟨0, 42, "uid", Val.str "ghost"⟩] } = none) ∧
    (process_one_raw ⟨3, 9, "FR", "FEEDBACK_SERVER_UID\tghost"⟩
        { emptyDB with
          servers := [⟨42⟩],
          serverFacts := [⟨0, 42, "uid", Val.str "ghost"⟩] } ≠ none) :=
  ⟨c8_missing_server_aborts.1 _ _ [("FEEDBACK_SERVER_UID", "ghost")]
      [("FEEDBACK_SERVER_UID", "ghost")] "ghost" ⟨0, 42, "uid", Val.str "ghost"⟩
      (by decide) (by decide) (by decide) (by decide) (by decide) (by decide),
   c8_missing_server_aborts.2 _ _ (by decide) (by decide)⟩

/-! ## C10: duplicate keys in one blob -/

/-- C10: for a blob that parses, the parser's ordered `values` list has one
entry per blob line (so one `Data` row per occurrence of a repeated key, all
values preserved and, in the accepted case, appended verbatim to the `Data`
relation), while the flat `data` dictionary used for the
`FEEDBACK_SERVER_UID` and `FEEDBACK_USER_INFO` admission checks maps each
key to the value of its last occurrence. -/
theorem c10_duplicate_key_admission :
    (∀ blob values data, parseRawUpload blob = some (values, data) →
       readerRows blob = values.map (fun p => [p.1, p.2]) ∧
       ∀ k, dictGet? data k =
         ((values.filter (fun p => p.1 = k)).map (fun p => p.2)).getLast?) ∧
    (∀ (raw : RawData) values serverId (db : DB),
       (ingestAccepted raw values serverId db).data =
         db.data ++ values.map (fun p =>
           { upload_id := db.nextUploadId, key := p.1, value := p.2 })) := by
  constructor
  · intro blob values data h
    rcases parseLoop_some h with ⟨pairs, hrows, hvals, hdata⟩
    rw [List.nil_append] at hvals
    subst hvals
    constructor
    · exact hrows
    · intro k
      rw [hdata, dictGet?_foldl_dictSet]
      exact Option.or_none
  · intro raw values serverId db
    rfl

theorem c10_witness :
    (readerRows "a\t1\na\t2" =
      ([("a", "1"), ("a", "2")] : List (String × String)).map (fun p => [p.1, p.2])) ∧
    (dictGet? [("a", "2")] "a" =
      ((([("a", "1"), ("a", "2")] : List (String × String)).filter
        (fun p => p.1 = "a")).map (fun p => p.2)).getLast?) :=
  ⟨(c10_duplicate_key_admission.1 "a\t1\na\t2" _ _ rfl).1,
   (c10_duplicate_key_admission.1 "a\t1\na\t2" [("a", "1"), ("a", "2")] [("a", "2")] rfl).2 "a"⟩

/-! ## C2: first_seen / last_seen / country_code semantics -/

/-- The database state reached after ingesting the uploads `ups`
(pairs of upload id and time, oldest first) of the single server with uid
`abc123`: one Upload and one Data row per accepted upload, and the four
always-present server facts. -/
def scenarioDB (ups : List (Nat × Int)) (c : String) (tFirst tLast : Int) : DB :=
  { rawData := [], servers := [⟨0⟩],
    uploads := ups.map (fun p => ⟨p.1, p.2, 0⟩),
    data := ups.map (fun p => ⟨p.1, "FEEDBACK_SERVER_UID", "abc123"⟩),
    serverFacts := [⟨0, 0, "uid", Val.str "abc123"⟩,
                    ⟨1, 0, "country_code", Val.str c⟩,
                    ⟨2, 0, "last_seen", Val.time tLast⟩,
                    ⟨3, 0, "first_seen", Val.time tFirst⟩],
    uploadFacts := [], uploadData := [],
    nextServerId := 1, nextUploadId := ups.length,
    nextServerFactId := 4, nextUploadFactId := 0 }

/-- C2: for a server whose accepted uploads are processed in ascending
upload-time order at times `T1 < T2 < T3`, after ingestion `country_code`
and `last_seen` hold the most recently processed upload's values
(`last_seen = T3`), while `first_seen` keeps the value set at its first
creation (`first_seen = T1`); processing one more upload at any time `T4` —
even one earlier than `T1` — still leaves `first_seen = T1` while
`last_seen` becomes `T4`. -/
theorem c2_first_last_seen_semantics (T1 T2 T3 T4 : Int) (c1 c2 c3 c4 : String)
    (h12 : T1 < T2) (h23 : T2 < T3) :
    ∃ db1 db2 db3 db4 : DB,
      process_one_raw ⟨1, T1, c1, "FEEDBACK_SERVER_UID\tabc123"⟩ emptyDB = some db1 ∧
      process_one_raw ⟨2, T2, c2, "FEEDBACK_SERVER_UID\tabc123"⟩ db1 = some db2 ∧
      process_one_raw ⟨3, T3, c3, "FEEDBACK_SERVER_UID\tabc123"⟩ db2 = some db3 ∧
      (db3.serverFacts.filter (fun f => f.server_id = 0 ∧ f.key = "first_seen")).map
        (fun f => f.value) = [Val.time T1] ∧
      (db3.serverFacts.filter (fun f => f.server_id = 0 ∧ f.key = "last_seen")).map
        (fun f => f.value) = [Val.time T3] ∧
      (db3.serverFacts.filter (fun f => f.server_id = 0 ∧ f.key = "country_code")).map
        (fun f => f.value) = [Val.str c3] ∧
      process_one_raw ⟨4, T4, c4, "FEEDBACK_SERVER_UID\tabc123"⟩ db3 = some db4 ∧
      (db4.serverFacts.filter (fun f => f.server_id = 0 ∧ f.key = "first_seen")).map
        (fun f => f.value) = [Val.time T1] ∧
      (db4.serverFacts.filter (fun f => f.server_id = 0 ∧ f.key = "last_seen")).map
        (fun f => f.value) = [Val.time T4] := by
  refine ⟨scenarioDB [(0, T1)] c1 T1 T1,
          scenarioDB [(0, T1), (1, T2)] c2 T1 T2,
          scenarioDB [(0, T1), (1, T2), (2, T3)] c3 T1 T3,
          scenarioDB [(0, T1), (1, T2), (2, T3), (3, T4)] c4 T1 T4,
          rfl, rfl, rfl, rfl, rfl, rfl, rfl, rfl, rfl⟩

theorem c2_witness :
    (0 : Int) < 1 ∧ (1 : Int) < 2 ∧
    ∃ db1 db2 db3 db4 : DB,
      process_one_raw ⟨1, 0, "US", "FEEDBACK_SERVER_UID\tabc123"⟩ emptyDB = some db1 ∧
      process_one_raw ⟨2, 1, "US", "FEEDBACK_SERVER_UID\tabc123"⟩ db1 = some db2 ∧
      process_one_raw ⟨3, 2, "DE", "FEEDBACK_SERVER_UID\tabc123"⟩ db2 = some db3 ∧
      (db3.serverFacts.filter (fun f => f.server_id = 0 ∧ f.key = "first_seen")).map
        (fun f => f.value) = [Val.time 0] ∧
      (db3.serverFacts.filter (fun f => f.server_id = 0 ∧ f.key = "last_seen")).map
        (fun f => f.value) = [Val.time 2] ∧
      (db3.serverFacts.filter (fun f => f.server_id = 0 ∧ f.key = "country_code")).map
        (fun f => f.value) = [Val.str "DE"] ∧
      process_one_raw ⟨4, -5, "FR", "FEEDBACK_SERVER_UID\tabc123"⟩ db3 = some db4 ∧
      (db4.serverFacts.filter (fun f => f.server_id = 0 ∧ f.key = "first_seen")).map
        (fun f => f.value) = [Val.time 0] ∧
      (db4.serverFacts.filter (fun f => f.server_id = 0 ∧ f.key = "last_seen")).map
        (fun f => f.value) = [Val.time (-5)] :=
  ⟨by decide, by decide,
   c2_first_last_seen_semantics 0 1 2 (-5) "US" "US" "DE" "FR" (by decide) (by decide)⟩

/-! ## C3: one server per uid, created together with its identity fact -/

theorem exists_key_sid_after_update (upd l : List ComputedServerFact)
    {k : String} {sid : Nat}
    (h : ∃ f ∈ l, f.key = k ∧ f.server_id = sid) :
    ∃ f ∈ l.map (fun f =>
        match upd.find? (fun g => g.id = f.id) with
        | some g => { f with value := g.value }
        | none => f), f.key = k ∧ f.server_id = sid := by
  rcases h with ⟨f, hf, hk, hs⟩
  refine ⟨_, List.mem_map_of_mem _ hf, ?_⟩
  cases upd.find? (fun g => g.id = f.id) <;> simp [hk, hs]

theorem ingestAccepted_preserves_fact (raw : RawData) (values : List (String × String))
    (serverId : Nat) (db : DB) (k : String) (sid : Nat)
    (h : ∃ f ∈ db.serverFacts, f.key = k ∧ f.server_id = sid) :
    ∃ f ∈ (ingestAccepted raw values serverId db).serverFacts,
      f.key = k ∧ f.server_id = sid := by
  rcases h with ⟨f, hf, hp⟩
  exact exists_key_sid_after_update _ _ ⟨f, List.mem_append_left _ hf, hp⟩

/-- C3: two accepted raw uploads carrying the same `FEEDBACK_SERVER_UID`
lead to exactly one `Server` row, created on first sight together with its
`uid` fact, and both `Upload` rows reference it; moreover `process_one_raw`
preserves the invariant that every server has a `uid` identity fact (a
server is never created without one). -/
theorem c3_single_server_per_uid :
    (∀ (T1 T2 : Int) (c1 c2 : String),
      ∃ db1 db2 : DB,
        process_one_raw ⟨1, T1, c1, "FEEDBACK_SERVER_UID\tabc123"⟩ emptyDB = some db1 ∧
        process_one_raw ⟨2, T2, c2, "FEEDBACK_SERVER_UID\tabc123"⟩ db1 = some db2 ∧
        db1.servers = [⟨0⟩] ∧
        (db1.serverFacts.filter (fun f => f.key = "uid")).map
          (fun f => (f.server_id, f.value)) = [(0, Val.str "abc123")] ∧
        db2.servers = [⟨0⟩] ∧
        db2.uploads.map (fun u => u.server_id) = [0, 0]) ∧
    (∀ (raw : RawData) (db db' : DB),
      process_one_raw raw db = some db' →
      (∀ s ∈ db.servers, ∃ f ∈ db.serverFacts, f.key = "uid" ∧ f.server_id = s.id) →
      (∀ s ∈ db'.servers, ∃ f ∈ db'.serverFacts, f.key = "uid" ∧ f.server_id = s.id)) := by
  constructor
  · intro T1 T2 c1 c2
    refine ⟨_, _, rfl, rfl, ?_, ?_, ?_, ?_⟩ <;> rfl
  · intro raw db db' hrun hinv
    rw [process_one_raw] at hrun
    split at hrun
    · cases hrun; exact hinv
    · split at hrun
      · cases hrun
      · split at hrun
        · cases hrun; exact hinv
        · split at hrun
          · cases hrun; exact hinv
          · split at hrun
            · cases hrun; exact hinv
            · split at hrun
              · split at hrun
                · cases hrun
                  intro s hs
                  exact ingestAccepted_preserves_fact _ _ _ _ _ _ (hinv s hs)
                · cases hrun
              · cases hrun
                intro s hs
                rcases List.mem_append.mp hs with hs | hs
                · rcases hinv s hs with ⟨f, hf, hp⟩
                  exact ingestAccepted_preserves_fact _ _ _ _ _ _
                    ⟨f, List.mem_append_left _ hf, hp⟩
                · rcases List.mem_singleton.mp hs with rfl
                  exact ingestAccepted_preserves_fact _ _ _ _ _ _
                    ⟨_, List.mem_append_right _ (List.mem_singleton.mpr rfl), rfl, rfl⟩

theorem c3_witness :
    (∃ db1 db2 : DB,
      process_one_raw ⟨1, 10, "US", "FEEDBACK_SERVER_UID\tabc123"⟩ emptyDB = some db1 ∧
      process_one_raw ⟨2, 20, "DE", "FEEDBACK_SERVER_UID\tabc123"⟩ db1 = some db2 ∧
      db1.servers = [⟨0⟩] ∧
      (db1.serverFacts.filter (fun f => f.key = "uid")).map
        (fun f => (f.server_id, f.value)) = [(0, Val.str "abc123")] ∧
      db2.servers = [⟨0⟩] ∧
      db2.uploads.map (fun u => u.server_id) = [0, 0]) ∧
    (∀ s ∈ emptyDB.servers, ∃ f ∈ emptyDB.serverFacts, f.key = "uid" ∧ f.server_id = s.id) :=
  ⟨c3_single_server_per_uid.1 10 20 "US" "DE",
   c3_single_server_per_uid.2 ⟨1, 5, "US", "oops"⟩ emptyDB emptyDB rfl
     (by intro s hs; simp [emptyDB] at hs)⟩

/-! ## C7: the extraction query layer -/

/-- Whether the grouping loop files data row `d` under the cell
`(s, u, k)`: it belongs to upload `u` of server `s` and its lowercased key
is `k`. -/
def groupMatches (db : DB) (s u : Nat) (k : String) (d : Data) : Bool :=
  match owningUpload db d with
  | some up => decide (s = up.server_id) && decide (u = d.upload_id) &&
      decide (k = lowerStr d.key)
  | none => false

theorem foldl_groupStep_apply (db : DB) (rows : List Data) :
    ∀ (acc : Nat → Nat → String → List String) (s u : Nat) (k : String),
    (rows.foldl (groupStep db) acc) s u k =
      acc s u k ++ (rows.filter (groupMatches db s u k)).map (fun d => d.value) := by
  induction rows with
  | nil => intro acc s u k; simp
  | cons d rest ih =>
    intro acc s u k
    rw [List.foldl_cons, ih]
    cases hup : owningUpload db d with
    | none =>
      have hstep : groupStep db acc d = acc := by rw [groupStep, hup]
      have hm : groupMatches db s u k d = false := by rw [groupMatches, hup]
      rw [hstep, List.filter_cons_of_neg (by rw [hm]; exact Bool.false_ne_true)]
    | some up =>
      have hstep : groupStep db acc d s u k =
          if s = up.server_id ∧ u = d.upload_id ∧ k = lowerStr d.key then
            acc s u k ++ [d.value]
          else acc s u k := by rw [groupStep, hup]
      have hm : groupMatches db s u k d =
          (decide (s = up.server_id) && decide (u = d.upload_id) &&
            decide (k = lowerStr d.key)) := by rw [groupMatches, hup]
      rw [hstep]
      by_cases hc : s = up.server_id ∧ u = d.upload_id ∧ k = lowerStr d.key
      · rw [if_pos hc,
          List.filter_cons_of_pos (by rw [hm]; simp [hc.1, hc.2.1, hc.2.2])]
        simp
      · rw [if_neg hc, List.filter_cons_of_neg (by rw [hm]; simpa using hc)]

/-- The claim's key criterion, written from the spec's words: a data row is
returned only when its key case-insensitively matches one of the
extractors' required keys — so no row matches when no keys are required.
For comparison with the code's `matchesKeyFilter`, whose empty `Q()`
matches every row. -/
def specKeyMatch (keys : List String) (dkey : String) : Bool :=
  keys.any (fun k => lowerStr dkey = lowerStr k)

/-- C7 counterexample: with an extractor list declaring no required keys,
the stored data row's key matches none of the required keys, so the
original claim says the query returns no rows; but the code's key filter
stays the empty `Q()`, which matches every row, and the in-range row's
value is returned. -/
theorem c7_counterexample :
    specKeyMatch (requiredKeys []) "os" = false ∧
    get_upload_data_for_data_extractors 0 10 [] true
        { emptyDB with
          servers := [⟨7⟩],
          uploads := [⟨1, 5, 7⟩],
          data := [⟨1, "os", "Linux"⟩] }
        7 1 "os" = ["Linux"] := by
  refine ⟨by decide, by decide⟩

/-- C7 (amended): the extraction query layer returns, for each upload
(grouped under its owning server and each lowercased key), exactly the
values of the Data rows of that upload whose key passes the key filter —
a case-insensitive match against any required key when the extractors
require keys, and every key when they require none, since the empty `Q()`
imposes no constraint — and whose owning upload's time lies in
`[start_date, end_date]` when `end_inclusive` and in `[start_date, end_date)`
otherwise, in stored order (so repeated keys keep all their values); cells
that correspond to no upload of the database are empty. -/
theorem c7_extraction_query_exact (start_date end_date : Int)
    (data_extractors : List DataExtractor) (end_inclusive : Bool) (db : DB)
    (hnodup : (db.uploads.map (fun u => u.id)).Nodup)
    (hsrv : ∀ u ∈ db.uploads, ∃ s ∈ db.servers, s.id = u.server_id) :
    (∀ up ∈ db.uploads, ∀ k,
      get_upload_data_for_data_extractors start_date end_date data_extractors
          end_inclusive db up.server_id up.id k =
        (db.data.filter (fun d => decide (d.upload_id = up.id) &&
            inDateRange start_date end_date end_inclusive up.upload_time &&
            matchesKeyFilter (requiredKeys data_extractors) d.key &&
            decide (lowerStr d.key = k))).map (fun d => d.value)) ∧
    (∀ s u k, (∀ up ∈ db.uploads, up.id ≠ u ∨ up.server_id ≠ s) →
      get_upload_data_for_data_extractors start_date end_date data_extractors
          end_inclusive db s u k = []) := by
  constructor
  · intro up hup k
    rw [get_upload_data_for_data_extractors, foldl_groupStep_apply, List.nil_append,
      List.filter_filter]
    congr 1
    refine List.filter_congr ?_
    intro d _
    cases hud : owningUpload db d with
    | none =>
      have hne : d.upload_id ≠ up.id := by
        intro he
        rw [owningUpload, List.find?_eq_none] at hud
        exact hud up hup (by simp [he])
      simp [groupMatches, hud, hne]
    | some u' =>
      have hud2 : db.uploads.find? (fun u => u.id = d.upload_id) = some u' := by
        have h0 := hud; rwa [owningUpload] at h0
      have hu'mem := List.mem_of_find?_eq_some hud2
      have hu'pred := List.find?_some hud2
      have hu'id : u'.id = d.upload_id := by simpa using hu'pred
      by_cases he : d.upload_id = up.id
      · have : u' = up := by
          have h1 : u'.id = up.id := by rw [hu'id, he]
          exact List.inj_on_of_nodup_map hnodup hu'mem hup h1
        subst this
        rcases hsrv u' hu'mem with ⟨srv, hsrvmem, hsrvid⟩
        have hany : db.servers.any (fun s => s.id = u'.server_id) = true :=
          List.any_eq_true.mpr ⟨srv, hsrvmem, by simp [hsrvid]⟩
        have hds : dataRowSelected db start_date end_date
            (requiredKeys data_extractors) end_inclusive d =
            (inDateRange start_date end_date end_inclusive u'.upload_time &&
             matchesKeyFilter (requiredKeys data_extractors) d.key) := by
          rw [dataRowSelected, hud]
          simp only [hany, Bool.true_and]
        have hgm : groupMatches db u'.server_id u'.id k d =
            decide (k = lowerStr d.key) := by
          rw [groupMatches, hud]
          simp [hu'id]
        rw [hds, hgm, he]
        simp only [decide_eq_true_eq]
        by_cases hdr : inDateRange start_date end_date end_inclusive u'.upload_time
        · by_cases hmk : matchesKeyFilter (requiredKeys data_extractors) d.key
          · simp [hdr, hmk, eq_comm]
          · simp [hdr, hmk]
        · simp [hdr]
      · have hgm : groupMatches db up.server_id up.id k d = false := by
          rw [groupMatches, hud]
          have : ¬ (up.id = d.upload_id) := fun h => he (h.symm)
          simp [this]
        rw [hgm]
        have : ¬ (d.upload_id = up.id) := he
        simp [this]
  · intro s u k hnone
    rw [get_upload_data_for_data_extractors, foldl_groupStep_apply, List.nil_append]
    have : ∀ d ∈ db.data.filter
        (dataRowSelected db start_date end_date (requiredKeys data_extractors)
          end_inclusive),
        ¬ (groupMatches db s u k d = true) := by
      intro d _ hm
      rw [groupMatches] at hm
      cases hud : owningUpload db d with
      | none => rw [hud] at hm; cases hm
      | some u' =>
        rw [hud] at hm
        have hud2 : db.uploads.find? (fun u => u.id = d.upload_id) = some u' := by
          have h0 := hud; rwa [owningUpload] at h0
        have hu'mem := List.mem_of_find?_eq_some hud2
        have hu'pred := List.find?_some hud2
        have hu'id : u'.id = d.upload_id := by simpa using hu'pred
        simp only [Bool.and_eq_true, decide_eq_true_eq] at hm
        rcases hnone u' hu'mem with hne | hne
        · exact hne (by rw [hu'id, ← hm.1.2])
        · exact hne hm.1.1.symm
    rw [List.filter_eq_nil_iff.mpr this]
    rfl

theorem c7_witness :
    (get_upload_data_for_data_extractors 0 10 [⟨["OS"]⟩] true
        { emptyDB with
          servers := [⟨7⟩],
          uploads := [⟨1, 5, 7⟩],
          data := [⟨1, "os", "Linux"⟩, ⟨1, "OS", "Mac"⟩, ⟨1, "mem", "2G"⟩] }
        7 1 "os" =
      ((([⟨1, "os", "Linux"⟩, ⟨1, "OS", "Mac"⟩, ⟨1, "mem", "2G"⟩] : List Data).filter
        (fun d => decide (d.upload_id = 1) && inDateRange 0 10 true 5 &&
          matchesKeyFilter (requiredKeys [⟨["OS"]⟩]) d.key &&
          decide (lowerStr d.key = "os"))).map (fun d => d.value))) ∧
    (get_upload_data_for_data_extractors 0 10 [⟨["OS"]⟩] true
        { emptyDB with
          servers := [⟨7⟩],
          uploads := [⟨1, 5, 7⟩],
          data := [⟨1, "os", "Linux"⟩, ⟨1, "OS", "Mac"⟩, ⟨1, "mem", "2G"⟩] }
        3 3 "os" = []) := by
  have h := c7_extraction_query_exact 0 10 [⟨["OS"]⟩] true
    { emptyDB with
      servers := [⟨7⟩],
      uploads := [⟨1, 5, 7⟩],
      data := [⟨1, "os", "Linux"⟩, ⟨1, "OS", "Mac"⟩, ⟨1, "mem", "2G"⟩] }
    (by decide) (by decide)
  exact ⟨h.1 ⟨1, 5, 7⟩ (by decide) "os", h.2 3 3 "os" (by decide)⟩

/-! ## C9: the pivot projector -/

/-- Lookup of the pivoted value of key `k` for upload `u` in a pivot map. -/
def getPV (m : List (Nat × List (String × String))) (u : Nat) (k : String) :
    Option String :=
  (dictGet? m u).bind (fun doc => dictGet? doc k)

theorem getPV_pivotFold (rows : List Data) :
    ∀ (acc : List (Nat × List (String × String))) (u : Nat) (k : String),
    getPV (rows.foldl pivotStep acc) u k =
      (((rows.filter (fun r => r.upload_id = u ∧ r.key = k)).map
        (fun r => r.value)).getLast?).or (getPV acc u k) := by
  induction rows with
  | nil => intro acc u k; simp
  | cons row rest ih =>
    intro acc u k
    rw [List.foldl_cons, ih]
    by_cases hu : row.upload_id = u
    · by_cases hk : row.key = k
      · rw [List.filter_cons_of_pos (by simp [hu, hk]), List.map_cons,
          getLast?_cons_or, Option.or_assoc]
        congr 1
        rw [getPV, pivotStep, hu, dictGet?_dictSet_self, Option.some_bind, hk,
          dictGet?_dictSet_self]
        rfl
      · rw [List.filter_cons_of_neg (by simp [hk])]
        congr 1
        rw [getPV, pivotStep, hu, dictGet?_dictSet_self, Option.some_bind,
          dictGet?_dictSet_ne _ _ _ _ (fun he => hk he.symm)]
        rw [getPV, dictGetD]
        cases hacc : dictGet? acc u with
        | none => simp [dictGet?]
        | some doc => simp
    · rw [List.filter_cons_of_neg (by simp [hu])]
      congr 1
      rw [getPV, pivotStep, dictGet?_dictSet_ne _ _ _ _ (fun he => hu he.symm)]
      rfl

theorem nodup_keys_pivotFold (rows : List Data) :
    ∀ acc, (acc.map Prod.fst).Nodup →
    ((rows.foldl pivotStep acc).map Prod.fst).Nodup := by
  induction rows with
  | nil => intro acc h; exact h
  | cons row rest ih =>
    intro acc h
    exact ih _ (nodup_keys_dictSet _ _ _ h)

theorem filter_key_singleton {α β : Type} [DecidableEq β] (key : α → β)
    {l : List α} {x : α} {u : β}
    (hnd : (l.map key).Nodup) (hx : x ∈ l) (hk : key x = u) :
    l.filter (fun y => key y = u) = [x] := by
  induction l with
  | nil => simp at hx
  | cons h rest ih =>
    simp only [List.map_cons, List.nodup_cons] at hnd
    rcases List.mem_cons.mp hx with hx | hx
    · subst hx
      rw [List.filter_cons_of_pos (by simp [hk])]
      have : rest.filter (fun y => key y = u) = [] := by
        rw [List.filter_eq_nil_iff]
        intro y hy hky
        exact hnd.1 (hk ▸ (of_decide_eq_true hky) ▸ List.mem_map.mpr ⟨y, hy, rfl⟩)
      rw [this]
    · have hne : key h ≠ u := by
        intro he
        exact hnd.1 (he ▸ hk ▸ List.mem_map.mpr ⟨x, hx, rfl⟩)
      rw [List.filter_cons_of_neg (by simp [hne]), ih hnd.2 hx]

theorem uoc_filter_self (u : Nat) (doc : List (String × String)) (db : DB)
    (hnd : (db.uploadData.map (fun ud => ud.upload_id)).Nodup) :
    (updateOrCreateUploadData u doc db).uploadData.filter
      (fun ud => ud.upload_id = u) = [{ upload_id := u, upload_json := doc }] := by
  rw [updateOrCreateUploadData]
  split
  · rename_i hany
    rcases List.any_eq_true.mp hany with ⟨ud0, hud0, hud0id⟩
    have hud0id' : ud0.upload_id = u := of_decide_eq_true hud0id
    rw [List.filter_map]
    have hpf : ∀ ud : UploadData,
        ((fun ud : UploadData => decide (ud.upload_id = u)) ∘
          (fun ud : UploadData =>
            if ud.upload_id = u then { ud with upload_json := doc } else ud)) ud =
        decide (ud.upload_id = u) := by
      intro ud
      by_cases h : ud.upload_id = u
      · simp [h]
      · simp [h]
    rw [List.filter_congr (fun ud _ => hpf ud)]
    rw [filter_key_singleton (fun ud => ud.upload_id) hnd hud0 hud0id']
    simp [hud0id']
  · rename_i hany
    rw [List.filter_append]
    have h1 : db.uploadData.filter (fun ud => ud.upload_id = u) = [] := by
      rw [List.filter_eq_nil_iff]
      intro ud hud hid
      exact hany (List.any_eq_true.mpr ⟨ud, hud, hid⟩)
    rw [h1]
    simp

theorem uoc_filter_ne (u : Nat) (doc : List (String × String)) (db : DB)
    {u' : Nat} (hne : u' ≠ u) :
    (updateOrCreateUploadData u doc db).uploadData.filter
      (fun ud => ud.upload_id = u') =
    db.uploadData.filter (fun ud => ud.upload_id = u') := by
  rw [updateOrCreateUploadData]
  split
  · rw [List.filter_map]
    have hpf : ∀ ud : UploadData,
        ((fun ud : UploadData => decide (ud.upload_id = u')) ∘
          (fun ud : UploadData =>
            if ud.upload_id = u then { ud with upload_json := doc } else ud)) ud =
        decide (ud.upload_id = u') := by
      intro ud
      have hne2 : ¬ (u = u') := fun hh => hne hh.symm
      by_cases h : ud.upload_id = u
      · simp [h, hne2]
      · simp [h]
    rw [List.filter_congr (fun ud _ => hpf ud)]
    have : ∀ ud ∈ db.uploadData.filter (fun ud => ud.upload_id = u'),
        (fun ud : UploadData =>
          if ud.upload_id = u then { ud with upload_json := doc } else ud) ud = ud := by
      intro ud hud
      have hid0 := List.of_mem_filter hud
      have hid : ud.upload_id = u' := by simpa using hid0
      have hne3 : ¬ (ud.upload_id = u) := by rw [hid]; exact hne
      simp [hne3]
    calc List.map _ (db.uploadData.filter (fun ud => ud.upload_id = u'))
        = List.map id (db.uploadData.filter (fun ud => ud.upload_id = u')) :=
          List.map_congr_left this
      _ = _ := List.map_id _
  · rw [List.filter_append]
    have hne2 : ¬ (u = u') := fun hh => hne hh.symm
    have : ([{ upload_id := u, upload_json := doc }] : List UploadData).filter
        (fun ud => ud.upload_id = u') = [] := by
      simp [hne2]
    rw [this, List.append_nil]

theorem uoc_keys (u : Nat) (doc : List (String × String)) (db : DB) :
    (updateOrCreateUploadData u doc db).uploadData.map (fun ud => ud.upload_id) =
      db.uploadData.map (fun ud => ud.upload_id) ∨
    (updateOrCreateUploadData u doc db).uploadData.map (fun ud => ud.upload_id) =
      db.uploadData.map (fun ud => ud.upload_id) ++ [u] := by
  rw [updateOrCreateUploadData]
  split
  · left
    rw [List.map_map]
    refine List.map_congr_left ?_
    intro ud _
    by_cases h : ud.upload_id = u
    · simp [h]
    · simp [h]
  · right
    rw [List.map_append]
    rfl

theorem uoc_nodup (u : Nat) (doc : List (String × String)) (db : DB)
    (hnd : (db.uploadData.map (fun ud => ud.upload_id)).Nodup) :
    ((updateOrCreateUploadData u doc db).uploadData.map
      (fun ud => ud.upload_id)).Nodup := by
  rw [updateOrCreateUploadData]
  split
  · rw [List.map_map]
    have hpt : ∀ ud ∈ db.uploadData,
        ((fun ud : UploadData => ud.upload_id) ∘
          (fun ud : UploadData =>
            if ud.upload_id = u then { ud with upload_json := doc } else ud)) ud =
        ud.upload_id := by
      intro ud _
      by_cases h : ud.upload_id = u
      · simp [h]
      · simp [h]
    rw [List.map_congr_left hpt]
    exact hnd
  · rename_i hany
    rw [List.map_append]
    have hu : u ∉ db.uploadData.map (fun ud => ud.upload_id) := by
      intro hmem
      rcases List.mem_map.mp hmem with ⟨ud, hud, hid⟩
      exact hany (List.any_eq_true.mpr ⟨ud, hud, by simp [hid]⟩)
    simp [List.nodup_append, hnd, hu]

theorem uoc_mem_untouched (u : Nat) (doc : List (String × String)) (db : DB)
    {ud : UploadData} (hud : ud ∈ db.uploadData) (hne : ud.upload_id ≠ u) :
    ud ∈ (updateOrCreateUploadData u doc db).uploadData := by
  rw [updateOrCreateUploadData]
  split
  · have : (fun ud : UploadData =>
        if ud.upload_id = u then { ud with upload_json := doc } else ud) ud = ud := by
      simp [hne]
    exact this ▸ List.mem_map_of_mem _ hud
  · exact List.mem_append_left _ hud

theorem uoc_id (u : Nat) (doc : List (String × String)) (db : DB)
    (hnd : (db.uploadData.map (fun ud => ud.upload_id)).Nodup)
    (hfil : db.uploadData.filter (fun ud => ud.upload_id = u) =
      [{ upload_id := u, upload_json := doc }]) :
    updateOrCreateUploadData u doc db = db := by
  have hmem : ({ upload_id := u, upload_json := doc } : UploadData) ∈ db.uploadData := by
    have : ({ upload_id := u, upload_json := doc } : UploadData) ∈
        db.uploadData.filter (fun ud => ud.upload_id = u) := by
      rw [hfil]; exact List.mem_singleton.mpr rfl
    exact List.mem_of_mem_filter this
  rw [updateOrCreateUploadData,
    if_pos (List.any_eq_true.mpr ⟨_, hmem, by simp⟩)]
  have hmap : db.uploadData.map (fun ud =>
      if ud.upload_id = u then { ud with upload_json := doc } else ud) =
      db.uploadData := by
    have : ∀ ud ∈ db.uploadData,
        (fun ud : UploadData =>
          if ud.upload_id = u then { ud with upload_json := doc } else ud) ud = ud := by
      intro ud hud
      by_cases h : ud.upload_id = u
      · have : ud ∈ db.uploadData.filter (fun ud => ud.upload_id = u) :=
          List.mem_filter.mpr ⟨hud, by simp [h]⟩
        rw [hfil] at this
        rcases List.mem_singleton.mp this with rfl
        simp
      · simp [h]
    calc db.uploadData.map _ = db.uploadData.map id := List.map_congr_left this
      _ = db.uploadData := List.map_id _
  rw [hmap]

theorem pivotApply_filter_frame (entries : List (Nat × List (String × String))) :
    ∀ (db : DB) (u : Nat), (∀ e ∈ entries, e.1 ≠ u) →
    ((entries.foldl (fun d p => updateOrCreateUploadData p.1 p.2 d) db).uploadData.filter
      (fun ud => ud.upload_id = u)) =
      db.uploadData.filter (fun ud => ud.upload_id = u) := by
  induction entries with
  | nil => intro db u _; rfl
  | cons e rest ih =>
    intro db u h
    rw [List.foldl_cons, ih _ _ (fun e' he' => h e' (List.mem_cons_of_mem _ he')),
      uoc_filter_ne _ _ _ (fun hh => h e (List.mem_cons_self _ _) hh.symm)]

theorem pivotApply_nodup (entries : List (Nat × List (String × String))) :
    ∀ (db : DB), (db.uploadData.map (fun ud => ud.upload_id)).Nodup →
    (((entries.foldl (fun d p => updateOrCreateUploadData p.1 p.2 d) db).uploadData.map
      (fun ud => ud.upload_id))).Nodup := by
  induction entries with
  | nil => intro db h; exact h
  | cons e rest ih =>
    intro db h
    exact ih _ (uoc_nodup _ _ _ h)

theorem pivotApply_filter_mem (entries : List (Nat × List (String × String)))
    (hkeys : (entries.map Prod.fst).Nodup) :
    ∀ (db : DB), (db.uploadData.map (fun ud => ud.upload_id)).Nodup →
    ∀ e ∈ entries,
    ((entries.foldl (fun d p => updateOrCreateUploadData p.1 p.2 d) db).uploadData.filter
      (fun ud => ud.upload_id = e.1)) = [{ upload_id := e.1, upload_json := e.2 }] := by
  induction entries with
  | nil => intro db _ e he; simp at he
  | cons e0 rest ih =>
    intro db hnd e he
    simp only [List.map_cons, List.nodup_cons] at hkeys
    rcases List.mem_cons.mp he with he | he
    · subst he
      rw [List.foldl_cons,
        pivotApply_filter_frame rest _ _ (fun e' he' hh =>
          hkeys.1 (by rw [← hh]; exact List.mem_map.mpr ⟨e', he', rfl⟩)),
        uoc_filter_self _ _ _ hnd]
    · rw [List.foldl_cons]
      exact ih hkeys.2 _ (uoc_nodup _ _ _ hnd) e he

theorem pivotApply_mem_untouched (entries : List (Nat × List (String × String))) :
    ∀ (db : DB) (ud : UploadData), ud ∈ db.uploadData →
    (∀ e ∈ entries, e.1 ≠ ud.upload_id) →
    ud ∈ (entries.foldl (fun d p => updateOrCreateUploadData p.1 p.2 d) db).uploadData := by
  induction entries with
  | nil => intro db ud h _; exact h
  | cons e rest ih =>
    intro db ud h hne
    rw [List.foldl_cons]
    exact ih _ _
      (uoc_mem_untouched _ _ _ h (fun hh => hne e (List.mem_cons_self _ _) hh.symm))
      (fun e' he' => hne e' (List.mem_cons_of_mem _ he'))

theorem uoc_data (u : Nat) (doc : List (String × String)) (db : DB) :
    (updateOrCreateUploadData u doc db).data = db.data := by
  rw [updateOrCreateUploadData]
  split <;> rfl

theorem pivotApply_data (entries : List (Nat × List (String × String))) :
    ∀ (db : DB),
    (entries.foldl (fun d p => updateOrCreateUploadData p.1 p.2 d) db).data = db.data := by
  induction entries with
  | nil => intro db; rfl
  | cons e rest ih =>
    intro db
    rw [List.foldl_cons, ih, uoc_data]

theorem pivotApply_id (entries : List (Nat × List (String × String))) :
    ∀ (db1 : DB),
    (∀ e ∈ entries, db1.uploadData.filter (fun ud => ud.upload_id = e.1) =
      [{ upload_id := e.1, upload_json := e.2 }]) →
    (db1.uploadData.map (fun ud => ud.upload_id)).Nodup →
    entries.foldl (fun d p => updateOrCreateUploadData p.1 p.2 d) db1 = db1 := by
  induction entries with
  | nil => intro db1 _ _; rfl
  | cons e rest ih =>
    intro db1 hfil hnd
    rw [List.foldl_cons, uoc_id _ _ _ hnd (hfil e (List.mem_cons_self _ _))]
    exact ih db1 (fun e' he' => hfil e' (List.mem_cons_of_mem _ he')) hnd

/-- C9: the pivot projector groups all Data rows (no time filter) by upload
into a key-to-value document where the last value wins for a duplicated key,
and upserts exactly one `UploadData` document per upload, wholly replacing
any prior document for that upload and leaving documents of other uploads
untouched; re-running the pivot replaces rather than appends (it is a no-op
on an already-pivoted database), and for an upload with Data rows
`("a","1"), ("b","2")` the resulting document is exactly those two pairs. -/
theorem c9_pivot_projector (db : DB)
    (hnd : (db.uploadData.map (fun ud => ud.upload_id)).Nodup) :
    (∀ u doc, (u, doc) ∈ pivotMap db.data →
       ((pivot_data db).uploadData.filter (fun ud => ud.upload_id = u) =
         [{ upload_id := u, upload_json := doc }] ∧
        ∀ k, dictGet? doc k =
          ((db.data.filter (fun r => r.upload_id = u ∧ r.key = k)).map
            (fun r => r.value)).getLast?)) ∧
    (∀ ud ∈ db.uploadData, (∀ e ∈ pivotMap db.data, e.1 ≠ ud.upload_id) →
       ud ∈ (pivot_data db).uploadData) ∧
    pivot_data (pivot_data db) = pivot_data db ∧
    pivotMap [⟨5, "a", "1"⟩, ⟨5, "b", "2"⟩] = [(5, [("a", "1"), ("b", "2")])] := by
  have hkeys : ((pivotMap db.data).map Prod.fst).Nodup := by
    rw [pivotMap]
    exact nodup_keys_pivotFold _ _ (by simp)
  have hpart1 : ∀ e ∈ pivotMap db.data,
      (pivot_data db).uploadData.filter (fun ud => ud.upload_id = e.1) =
        [{ upload_id := e.1, upload_json := e.2 }] := by
    intro e he
    rw [pivot_data]
    exact pivotApply_filter_mem _ hkeys db hnd e he
  refine ⟨?_, ?_, ?_, ?_⟩
  · intro u doc hmem
    refine ⟨hpart1 (u, doc) hmem, ?_⟩
    intro k
    have hget : dictGet? (pivotMap db.data) u = some doc :=
      mem_dictGet?_of_nodup hkeys hmem
    have hfold := getPV_pivotFold db.data [] u k
    rw [getPV] at hfold
    rw [pivotMap] at hget
    rw [hget, Option.some_bind] at hfold
    rw [show getPV [] u k = none from rfl, Option.or_none] at hfold
    exact hfold
  · intro ud hud hne
    rw [pivot_data]
    exact pivotApply_mem_untouched _ db ud hud hne
  · have hdata : (pivot_data db).data = db.data := by
      rw [pivot_data]
      exact pivotApply_data _ db
    have hnd1 : ((pivot_data db).uploadData.map (fun ud => ud.upload_id)).Nodup := by
      rw [pivot_data]
      exact pivotApply_nodup _ db hnd
    conv_lhs => rw [pivot_data]
    rw [hdata]
    exact pivotApply_id _ _ hpart1 hnd1
  · rfl

theorem c9_witness :
    ((pivot_data { emptyDB with
        data := [⟨5, "a", "1"⟩, ⟨5, "b", "2"⟩],
        uploadData := [⟨5, [("old", "doc")]⟩] }).uploadData.filter
      (fun ud => ud.upload_id = 5) =
      [{ upload_id := 5, upload_json := [("a", "1"), ("b", "2")] }]) ∧
    (pivot_data (pivot_data { emptyDB with
        data := [⟨5, "a", "1"⟩, ⟨5, "b", "2"⟩],
        uploadData := [⟨5, [("old", "doc")]⟩] }) =
      pivot_data { emptyDB with
        data := [⟨5, "a", "1"⟩, ⟨5, "b", "2"⟩],
        uploadData := [⟨5, [("old", "doc")]⟩] }) := by
  have h := c9_pivot_projector { emptyDB with
      data := [⟨5, "a", "1"⟩, ⟨5, "b", "2"⟩],
      uploadData := [⟨5, [("old", "doc")]⟩] } (by decide)
  exact ⟨(h.1 5 [("a", "1"), ("b", "2")] (by decide)).1, h.2.2.1⟩

/-! ## C6: the windowed ingestion driver -/

theorem windowStarts_unfold (s e : Int) :
    windowStarts s e = if s ≤ e then s :: windowStarts (s + 86400) e else [] := by
  rw [windowStarts]

theorem processWindows_unfold (s e : Int) (db : DB) :
    processWindows s e db = if s ≤ e then
      match process_from_date s (s + 86400) db with
      | none => none
      | some db1 => processWindows (s + 86400) e db1
    else some db := by
  rw [processWindows]

theorem processWindows_eq_foldlM_fuel :
    ∀ (n : Nat) (s e : Int), (e + 86400 - s).toNat ≤ n → ∀ db,
    processWindows s e db =
      (windowStarts s e).foldlM (fun d ws => process_from_date ws (ws + 86400) d) db := by
  intro n
  induction n with
  | zero =>
    intro s e h db
    rw [processWindows_unfold, windowStarts_unfold, if_neg (by omega), if_neg (by omega)]
    rfl
  | succ n ih =>
    intro s e h db
    rw [processWindows_unfold, windowStarts_unfold]
    by_cases hle : s ≤ e
    · rw [if_pos hle, if_pos hle, List.foldlM_cons]
      cases hpf : process_from_date s (s + 86400) db with
      | none => rfl
      | some db1 =>
        show processWindows (s + 86400) e db1 = _
        exact ih (s + 86400) e (by omega) db1
    · rw [if_neg hle, if_neg hle]
      rfl

theorem windowStarts_mem_ge :
    ∀ (n : Nat) (s e : Int), (e + 86400 - s).toNat ≤ n →
    ∀ ws ∈ windowStarts s e, s ≤ ws := by
  intro n
  induction n with
  | zero =>
    intro s e h ws hws
    rw [windowStarts_unfold, if_neg (by omega)] at hws
    simp at hws
  | succ n ih =>
    intro s e h ws hws
    rw [windowStarts_unfold] at hws
    by_cases hle : s ≤ e
    · rw [if_pos hle] at hws
      rcases List.mem_cons.mp hws with rfl | hws
      · exact le_refl ws
      · have := ih (s + 86400) e (by omega) ws hws
        omega
    · rw [if_neg hle] at hws
      simp at hws

theorem windowStarts_countP_one_fuel :
    ∀ (n : Nat) (s e t : Int), (e + 86400 - s).toNat ≤ n → s < t → t ≤ e →
    (windowStarts s e).countP (fun ws => decide (ws < t ∧ t ≤ ws + 86400)) = 1 := by
  intro n
  induction n with
  | zero =>
    intro s e t h h1 h2
    omega
  | succ n ih =>
    intro s e t h h1 h2
    rw [windowStarts_unfold, if_pos (by omega), List.countP_cons]
    by_cases hin : t ≤ s + 86400
    · have hrest : (windowStarts (s + 86400) e).countP
          (fun ws => decide (ws < t ∧ t ≤ ws + 86400)) = 0 := by
        rw [List.countP_eq_zero]
        intro ws hws
        have := windowStarts_mem_ge (e + 86400 - (s + 86400)).toNat (s + 86400) e
          le_rfl ws hws
        simp only [decide_eq_true_eq]
        omega
      rw [hrest]
      simp only [decide_eq_true_eq]
      rw [if_pos ⟨h1, hin⟩]
    · have hhead : ¬ (s < t ∧ t ≤ s + 86400) := by omega
      simp only [decide_eq_true_eq]
      rw [if_neg hhead, Nat.add_zero]
      exact ih (s + 86400) e t (by omega) (by omega) h2

theorem minUploadTime?_eq_none {l : List RawData} :
    minUploadTime? l = none ↔ l = [] := by
  cases l with
  | nil => simp [minUploadTime?]
  | cons r rest => simp [minUploadTime?]

theorem minUploadTime?_le {l : List RawData} :
    ∀ {mn}, minUploadTime? l = some mn → ∀ r ∈ l, mn ≤ r.upload_time := by
  induction l with
  | nil => intro mn h; cases h
  | cons r0 rest ih =>
    intro mn h r hr
    rw [minUploadTime?] at h
    obtain rfl := Option.some.inj h
    rcases List.mem_cons.mp hr with rfl | hr
    · cases hrest : minUploadTime? rest with
      | none => exact le_refl _
      | some m => exact min_le_left _ _
    · cases hrest : minUploadTime? rest with
      | none =>
        rw [minUploadTime?_eq_none.mp hrest] at hr
        simp at hr
      | some m =>
        exact le_trans (min_le_right _ _) (ih hrest r hr)

theorem maxUploadTime?_eq_none {l : List RawData} :
    maxUploadTime? l = none ↔ l = [] := by
  cases l with
  | nil => simp [maxUploadTime?]
  | cons r rest => simp [maxUploadTime?]

theorem le_maxUploadTime? {l : List RawData} :
    ∀ {mx}, maxUploadTime? l = some mx → ∀ r ∈ l, r.upload_time ≤ mx := by
  induction l with
  | nil => intro mx h; cases h
  | cons r0 rest ih =>
    intro mx h r hr
    rw [maxUploadTime?] at h
    obtain rfl := Option.some.inj h
    rcases List.mem_cons.mp hr with rfl | hr
    · cases hrest : maxUploadTime? rest with
      | none => exact le_refl _
      | some m => exact le_max_left _ _
    · cases hrest : maxUploadTime? rest with
      | none =>
        rw [maxUploadTime?_eq_none.mp hrest] at hr
        simp at hr
      | some m =>
        exact le_trans (ih hrest r hr) (le_max_right _ _)

/-- The raw uploads a window `[window_start, window_start + 24h)` would
select, as the claim states the window bounds (half-open on the right);
written from the spec's words, for comparison with the code's
`processBatch`. -/
def specWindowBatch (window_start : Int) (db : DB) : List RawData :=
  sortByUploadTime (db.rawData.filter (fun r =>
    window_start ≤ r.upload_time ∧ r.upload_time < window_start + 86400))

/-- C6 counterexample: with pending uploads at times 1 and 86400, the run's
window starts are 0 and 86400, and the upload at time 86400 is selected by
the code's first window (`process_from_date 0 86400`, i.e. the half-open
interval (0, 86400]) but not by the claim's first window [0, 86400): the
windows are left-open right-closed, not right-open as claimed. -/
theorem c6_counterexample :
    windowStarts 0 86400 = [0, 86400] ∧
    minUploadTime? [⟨1, 1, "US", "x"⟩, ⟨2, 86400, "US", "x"⟩] = some 1 ∧
    maxUploadTime? [⟨1, 1, "US", "x"⟩, ⟨2, 86400, "US", "x"⟩] = some 86400 ∧
    (⟨2, 86400, "US", "x"⟩ : RawData) ∈ processBatch 0 86400
      { emptyDB with rawData := [⟨1, 1, "US", "x"⟩, ⟨2, 86400, "US", "x"⟩] } ∧
    (⟨2, 86400, "US", "x"⟩ : RawData) ∉ specWindowBatch 0
      { emptyDB with rawData := [⟨1, 1, "US", "x"⟩, ⟨2, 86400, "US", "x"⟩] } := by
  refine ⟨?_, by decide, by decide, by decide, by decide⟩
  rw [windowStarts_unfold, if_pos (by norm_num), windowStarts_unfold,
    if_pos (by norm_num), windowStarts_unfold, if_neg (by norm_num)]
  norm_num

/-- C6 (amended): when no raw uploads are pending the run is a no-op;
otherwise the driver covers the span from the minimum pending upload time
minus one second to the maximum pending upload time, processing fixed
24-hour half-open windows `(window_start, window_start + 24h]` (left-open,
right-closed) sequentially from oldest to newest with `window_start`
advanced to the previous window's end, and every pending raw upload falls in
exactly one window. -/
theorem c6_windowed_driver (db : DB) :
    (db.rawData = [] → process_raw_data db = some db) ∧
    (∀ mn mx, minUploadTime? db.rawData = some mn →
      maxUploadTime? db.rawData = some mx →
      (process_raw_data db =
        (windowStarts (mn - 1) mx).foldlM
          (fun d ws => process_from_date ws (ws + 86400) d) db) ∧
      ∀ r ∈ db.rawData,
        (windowStarts (mn - 1) mx).countP
          (fun ws => decide (ws < r.upload_time ∧ r.upload_time ≤ ws + 86400)) = 1) := by
  constructor
  · intro h
    rw [process_raw_data, h]
    rfl
  · intro mn mx hmn hmx
    constructor
    · rw [process_raw_data, hmn, hmx]
      exact processWindows_eq_foldlM_fuel (mx + 86400 - (mn - 1)).toNat _ _ le_rfl db
    · intro r hr
      have h1 : mn ≤ r.upload_time := minUploadTime?_le hmn r hr
      have h2 : r.upload_time ≤ mx := le_maxUploadTime? hmx r hr
      exact windowStarts_countP_one_fuel (mx + 86400 - (mn - 1)).toNat (mn - 1) mx
        r.upload_time le_rfl (by omega) h2

theorem c6_witness :
    (process_raw_data emptyDB = some emptyDB) ∧
    (process_raw_data { emptyDB with rawData := [⟨1, 5, "US", "w"⟩] } =
      (windowStarts 4 5).foldlM (fun d ws => process_from_date ws (ws + 86400) d)
        { emptyDB with rawData := [⟨1, 5, "US", "w"⟩] }) ∧
    ((windowStarts 4 5).countP
      (fun ws => decide (ws < (5 : Int) ∧ (5 : Int) ≤ ws + 86400)) = 1) :=
  ⟨(c6_windowed_driver emptyDB).1 rfl,
   ((c6_windowed_driver { emptyDB with rawData := [⟨1, 5, "US", "w"⟩] }).2 5 5
      rfl rfl).1,
   ((c6_windowed_driver { emptyDB with rawData := [⟨1, 5, "US", "w"⟩] }).2 5 5
      rfl rfl).2 ⟨1, 5, "US", "w"⟩ (by decide)⟩

/-! ## C1: fact reconciliation

Generic helpers about `find?`, paired fold-appends and `flatMap`. -/

theorem find?_congr' {α : Type} {l : List α} {p q : α → Bool}
    (h : ∀ a ∈ l, p a = q a) : l.find? p = l.find? q := by
  induction l with
  | nil => rfl
  | cons a l ih =>
    rw [List.find?_cons, List.find?_cons, h a (List.mem_cons_self _ _)]
    split
    · rfl
    · exact ih (fun b hb => h b (List.mem_cons_of_mem _ hb))

theorem find?_unique {α : Type} {l : List α} {p : α → Bool} {x : α}
    (hx : x ∈ l) (hpx : p x = true) (huniq : ∀ y ∈ l, p y = true → y = x) :
    l.find? p = some x := by
  induction l with
  | nil => simp at hx
  | cons a l ih =>
    rw [List.find?_cons]
    cases hpa : p a with
    | true => rw [huniq a (List.mem_cons_self _ _) hpa]
    | false =>
      rcases List.mem_cons.mp hx with rfl | hx
      · rw [hpx] at hpa; cases hpa
      · exact ih hx (fun y hy hpy => huniq y (List.mem_cons_of_mem _ hy) hpy)

theorem foldl_pair_append {T A B : Type} (step : (List A × List B) → T → (List A × List B))
    (cf : T → List A) (uf : T → List B)
    (hstep : ∀ acc t, step acc t = (acc.1 ++ cf t, acc.2 ++ uf t)) :
    ∀ (l : List T) (acc : List A × List B),
    l.foldl step acc = (acc.1 ++ l.flatMap cf, acc.2 ++ l.flatMap uf) := by
  intro l
  induction l with
  | nil => intro acc; simp
  | cons t rest ih =>
    intro acc
    rw [List.foldl_cons, hstep, ih, List.flatMap_cons, List.flatMap_cons]
    simp [List.append_assoc]

theorem flatMap_congr' {α β : Type} {l : List α} {f g : α → List β}
    (h : ∀ a ∈ l, f a = g a) : l.flatMap f = l.flatMap g := by
  induction l with
  | nil => rfl
  | cons a l ih =>
    rw [List.flatMap_cons, List.flatMap_cons, h a (List.mem_cons_self _ _),
      ih (fun b hb => h b (List.mem_cons_of_mem _ hb))]

/-! ### The per-key create/update plan, in closed form -/

/-- The unique stored server fact row for `(server, key)` (the unique row
the per-key query of `extract_server_facts` can return for that server). -/
def existingRow (db : DB) (key : String) (s : Nat) : Option ComputedServerFact :=
  db.serverFacts.find? (fun f => f.server_id = s ∧ f.key = key)

def planCreates (key : String) (vals : List (Nat × Val))
    (lookup : Nat → Option ComputedServerFact) : List ComputedServerFact :=
  vals.flatMap (fun p =>
    match lookup p.1 with
    | some _ => []
    | none => [mkServerFact p.1 key p.2])

def planUpdates (key : String) (vals : List (Nat × Val))
    (lookup : Nat → Option ComputedServerFact) : List ComputedServerFact :=
  vals.flatMap (fun p =>
    match lookup p.1 with
    | some f => [{ f with value := p.2 }]
    | none => [])

theorem serverKeyPlan_eq (key : String) (vals : List (Nat × Val))
    (in_db : List (Nat × ComputedServerFact))
    (hnd : (vals.map Prod.fst).Nodup) :
    serverKeyPlan key vals in_db =
      (planCreates key vals (fun s => dictGet? in_db s),
       planUpdates key vals (fun s => dictGet? in_db s)) := by
  rw [serverKeyPlan]
  rw [foldl_pair_append _
    (fun s_id => match dictGet? vals s_id with
      | some v => (match dictGet? in_db s_id with
        | some _ => []
        | none => [mkServerFact s_id key v])
      | none => [])
    (fun s_id => match dictGet? vals s_id with
      | some v => (match dictGet? in_db s_id with
        | some f => [{ f with value := v }]
        | none => [])
      | none => [])
    (by
      intro acc t
      cases hv : dictGet? vals t with
      | none => simp [hv]
      | some v =>
        cases hf : dictGet? in_db t with
        | none => simp [hv, hf]
        | some f => simp [hv, hf])]
  rw [List.flatMap_map, List.flatMap_map]
  refine Prod.ext ?_ ?_
  · show vals.flatMap _ = _
    rw [planCreates]
    refine flatMap_congr' ?_
    intro p hp
    have hv : dictGet? vals p.1 = some p.2 := mem_dictGet?_of_nodup hnd (by
      obtain ⟨p1, p2⟩ := p; exact hp)
    show (match dictGet? vals p.1 with
      | some v => (match dictGet? in_db p.1 with
        | some _ => ([] : List ComputedServerFact)
        | none => [mkServerFact p.1 key v])
      | none => []) = _
    rw [hv]
  · show vals.flatMap _ = _
    rw [planUpdates]
    refine flatMap_congr' ?_
    intro p hp
    have hv : dictGet? vals p.1 = some p.2 := mem_dictGet?_of_nodup hnd (by
      obtain ⟨p1, p2⟩ := p; exact hp)
    show (match dictGet? vals p.1 with
      | some v => (match dictGet? in_db p.1 with
        | some f => [{ f with value := v }]
        | none => ([] : List ComputedServerFact))
      | none => []) = _
    rw [hv]

theorem dictGet?_rowsFold_frame (L : List ComputedServerFact) :
    ∀ (m0 : List (Nat × ComputedServerFact)) (s : Nat),
    (∀ f ∈ L, f.server_id ≠ s) →
    dictGet? (L.foldl (fun m f => dictSet m f.server_id f) m0) s = dictGet? m0 s := by
  induction L with
  | nil => intro m0 s _; rfl
  | cons f L ih =>
    intro m0 s h
    rw [List.foldl_cons, ih _ _ (fun g hg => h g (List.mem_cons_of_mem _ hg)),
      dictGet?_dictSet_ne _ _ _ _ (fun he => h f (List.mem_cons_self _ _) he.symm)]

theorem dictGet?_rowsFold (L : List ComputedServerFact)
    (hnd : (L.map (fun f => f.server_id)).Nodup) :
    ∀ (m0 : List (Nat × ComputedServerFact)) (s : Nat),
    dictGet? (L.foldl (fun m f => dictSet m f.server_id f) m0) s =
      match L.find? (fun f => f.server_id = s) with
      | some f => some f
      | none => dictGet? m0 s := by
  induction L with
  | nil => intro m0 s; rfl
  | cons f L ih =>
    intro m0 s
    simp only [List.map_cons, List.nodup_cons] at hnd
    rw [List.foldl_cons]
    by_cases hfs : f.server_id = s
    · rw [List.find?_cons_of_pos _ (by simp [hfs])]
      rw [dictGet?_rowsFold_frame L _ _ (fun g hg he =>
        hnd.1 (by rw [hfs]; exact he ▸ List.mem_map.mpr ⟨g, hg, rfl⟩)),
        ← hfs, dictGet?_dictSet_self]
    · rw [List.find?_cons_of_neg _ (by simp [hfs]), ih hnd.2]
      cases L.find? (fun g => g.server_id = s) with
      | some g => rfl
      | none => exact dictGet?_dictSet_ne _ _ _ _ (fun he => hfs he.symm)

theorem find?_filter_rows (l : List ComputedServerFact) (key : String)
    (sw : List Nat) (s : Nat) (hs : s ∈ sw) :
    (l.filter (fun f => sw.contains f.server_id ∧ f.key = key)).find?
      (fun f => f.server_id = s) =
    l.find? (fun f => f.server_id = s ∧ f.key = key) := by
  induction l with
  | nil => rfl
  | cons f rest ih =>
    by_cases hc : sw.contains f.server_id = true ∧ f.key = key
    · rw [List.filter_cons_of_pos (by exact decide_eq_true hc)]
      by_cases hfs : f.server_id = s
      · rw [List.find?_cons_of_pos _ (by simp [hfs]),
          List.find?_cons_of_pos _ (by exact decide_eq_true ⟨hfs, hc.2⟩)]
      · rw [List.find?_cons_of_neg _ (by simp [hfs]),
          List.find?_cons_of_neg _ (by simp [hfs]), ih]
    · rw [List.filter_cons_of_neg (by simpa using hc)]
      have hp : ¬ (f.server_id = s ∧ f.key = key) := by
        intro hcon
        exact hc ⟨by rw [hcon.1]; exact List.elem_eq_true_of_mem hs, hcon.2⟩
      rw [List.find?_cons_of_neg _ (by simpa using hp), ih]

theorem pairsNodup_filtered_sids (l : List ComputedServerFact) (key : String)
    (P : ComputedServerFact → Bool)
    (hpairs : (l.map (fun f => (f.server_id, f.key))).Nodup) :
    ((l.filter (fun f => P f ∧ f.key = key)).map (fun f => f.server_id)).Nodup := by
  have hsub : (l.filter (fun f => P f ∧ f.key = key)).Sublist l := List.filter_sublist l
  have hnd2 : ((l.filter (fun f => P f ∧ f.key = key)).map
      (fun f => (f.server_id, f.key))).Nodup :=
    (hsub.map _).nodup hpairs
  have hkey : ∀ f ∈ l.filter (fun f => P f ∧ f.key = key), f.key = key := by
    intro f hf
    have h0 : P f = true ∧ f.key = key := by simpa using List.of_mem_filter hf
    exact h0.2
  have hinj := List.inj_on_of_nodup_map hnd2
  refine List.Nodup.map_on ?_ (List.Nodup.of_map _ hnd2)
  intro x hx y hy hxy
  exact hinj hx hy (by rw [Prod.mk.injEq]; exact ⟨hxy, by rw [hkey x hx, hkey y hy]⟩)

theorem reconcileServerKey_eq (key : String) (vals : List (Nat × Val)) (db : DB)
    (hnd : (vals.map Prod.fst).Nodup)
    (hpairs : (db.serverFacts.map (fun f => (f.server_id, f.key))).Nodup) :
    reconcileServerKey key vals db =
      bulkUpdateServerFacts (planUpdates key vals (existingRow db key))
        (bulkCreateServerFacts (planCreates key vals (existingRow db key)) db) := by
  rw [reconcileServerKey, serverKeyPlan_eq key vals _ hnd]
  have hlookup : ∀ p ∈ vals,
      dictGet? ((db.serverFacts.filter (fun f =>
        (vals.map (fun p => p.1)).contains f.server_id ∧ f.key = key)).foldl
          (fun m f => dictSet m f.server_id f) []) p.1 =
      existingRow db key p.1 := by
    intro p hp
    rw [dictGet?_rowsFold _ (pairsNodup_filtered_sids _ _ _ hpairs), find?_filter_rows _ _ _ _
      (List.mem_map.mpr ⟨p, hp, rfl⟩), existingRow]
    cases db.serverFacts.find? (fun f => f.server_id = p.1 ∧ f.key = key) with
    | some f => rfl
    | none => rfl
  have hc : planCreates key vals (fun s => dictGet? ((db.serverFacts.filter (fun f =>
        (vals.map (fun p => p.1)).contains f.server_id ∧ f.key = key)).foldl
          (fun m f => dictSet m f.server_id f) []) s) =
      planCreates key vals (existingRow db key) := by
    rw [planCreates, planCreates]
    exact flatMap_congr' (fun p hp => by rw [hlookup p hp])
  have hu : planUpdates key vals (fun s => dictGet? ((db.serverFacts.filter (fun f =>
        (vals.map (fun p => p.1)).contains f.server_id ∧ f.key = key)).foldl
          (fun m f => dictSet m f.server_id f) []) s) =
      planUpdates key vals (existingRow db key) := by
    rw [planUpdates, planUpdates]
    exact flatMap_congr' (fun p hp => by rw [hlookup p hp])
  rw [hc, hu]

theorem mem_planCreates {key : String} {vals : List (Nat × Val)}
    {lookup : Nat → Option ComputedServerFact} {c : ComputedServerFact} :
    c ∈ planCreates key vals lookup ↔
      ∃ p ∈ vals, lookup p.1 = none ∧ c = mkServerFact p.1 key p.2 := by
  rw [planCreates, List.mem_flatMap]
  constructor
  · rintro ⟨p, hp, hc⟩
    cases hl : lookup p.1 with
    | some f => rw [hl] at hc; simp at hc
    | none =>
      rw [hl] at hc
      rcases List.mem_singleton.mp hc with rfl
      exact ⟨p, hp, hl, rfl⟩
  · rintro ⟨p, hp, hl, rfl⟩
    exact ⟨p, hp, by rw [hl]; exact List.mem_singleton.mpr rfl⟩

theorem mem_planUpdates {key : String} {vals : List (Nat × Val)}
    {lookup : Nat → Option ComputedServerFact} {g : ComputedServerFact} :
    g ∈ planUpdates key vals lookup ↔
      ∃ p ∈ vals, ∃ f0, lookup p.1 = some f0 ∧ g = { f0 with value := p.2 } := by
  rw [planUpdates, List.mem_flatMap]
  constructor
  · rintro ⟨p, hp, hg⟩
    cases hl : lookup p.1 with
    | some f0 =>
      rw [hl] at hg
      rcases List.mem_singleton.mp hg with rfl
      exact ⟨p, hp, f0, hl, rfl⟩
    | none => rw [hl] at hg; simp at hg
  · rintro ⟨p, hp, f0, hl, rfl⟩
    exact ⟨p, hp, by rw [hl]; exact List.mem_singleton.mpr rfl⟩

theorem planCreates_pairs (key : String) (vals : List (Nat × Val))
    (lookup : Nat → Option ComputedServerFact) :
    (planCreates key vals lookup).map (fun c => (c.server_id, c.key)) =
      (vals.filter (fun p => (lookup p.1).isNone)).map (fun p => (p.1, key)) := by
  induction vals with
  | nil => rfl
  | cons p rest ih =>
    rw [planCreates, List.flatMap_cons, List.map_append]
    cases hl : lookup p.1 with
    | some f =>
      rw [List.filter_cons_of_neg (by simp [hl])]
      show [] ++ _ = _
      rw [List.nil_append, ← planCreates, ih]
    | none =>
      rw [List.filter_cons_of_pos (by simp [hl]), List.map_cons]
      show [(p.1, key)] ++ _ = _
      rw [← planCreates, ih]
      rfl

theorem planCreates_pairs_nodup (key : String) (vals : List (Nat × Val))
    (lookup : Nat → Option ComputedServerFact)
    (hnd : (vals.map Prod.fst).Nodup) :
    ((planCreates key vals lookup).map (fun c => (c.server_id, c.key))).Nodup := by
  rw [planCreates_pairs]
  have hsub : ((vals.filter (fun p => (lookup p.1).isNone)).map Prod.fst).Nodup :=
    ((List.filter_sublist vals).map _).nodup hnd
  have hinj := List.inj_on_of_nodup_map hsub
  refine List.Nodup.map_on ?_ (List.Nodup.of_map _ hsub)
  intro x hx y hy hxy
  rw [Prod.mk.injEq] at hxy
  exact hinj hx hy hxy.1

theorem assign_view (next : Nat) (l : List ComputedServerFact) :
    (assignServerFactIds next l).map (fun c => (c.server_id, c.key, c.value)) =
      l.map (fun c => (c.server_id, c.key, c.value)) := by
  induction l generalizing next with
  | nil => rfl
  | cons c rest ih => rw [assignServerFactIds, List.map_cons, List.map_cons, ih]

theorem assign_pairs (next : Nat) (l : List ComputedServerFact) :
    (assignServerFactIds next l).map (fun c => (c.server_id, c.key)) =
      l.map (fun c => (c.server_id, c.key)) := by
  induction l generalizing next with
  | nil => rfl
  | cons c rest ih => rw [assignServerFactIds, List.map_cons, List.map_cons, ih]

theorem mem_assign_bounds (next : Nat) (l : List ComputedServerFact) :
    ∀ c ∈ assignServerFactIds next l, next ≤ c.id ∧ c.id < next + l.length := by
  induction l generalizing next with
  | nil => intro c hc; simp [assignServerFactIds] at hc
  | cons c0 rest ih =>
    intro c hc
    rw [assignServerFactIds] at hc
    rcases List.mem_cons.mp hc with rfl | hc
    · show next ≤ next ∧ next < next + (c0 :: rest).length
      simp only [List.length_cons]
      omega
    · have := ih (next + 1) c hc
      constructor
      · omega
      · simp only [List.length_cons]
        omega

theorem assign_ids_nodup (next : Nat) (l : List ComputedServerFact) :
    ((assignServerFactIds next l).map (fun c => c.id)).Nodup := by
  induction l generalizing next with
  | nil => exact List.nodup_nil
  | cons c0 rest ih =>
    rw [assignServerFactIds, List.map_cons, List.nodup_cons]
    refine ⟨?_, ih (next + 1)⟩
    intro hmem
    rcases List.mem_map.mp hmem with ⟨c, hc, hid⟩
    have hid2 : c.id = next := hid
    have := (mem_assign_bounds (next + 1) rest c hc).1
    omega

theorem mem_assign_src (next : Nat) (l : List ComputedServerFact) :
    ∀ c' ∈ assignServerFactIds next l, ∃ c ∈ l,
      c'.server_id = c.server_id ∧ c'.key = c.key ∧ c'.value = c.value := by
  induction l generalizing next with
  | nil => intro c' hc'; simp [assignServerFactIds] at hc'
  | cons c0 rest ih =>
    intro c' hc'
    rw [assignServerFactIds] at hc'
    rcases List.mem_cons.mp hc' with rfl | hc'
    · exact ⟨c0, List.mem_cons_self _ _, rfl, rfl, rfl⟩
    · rcases ih (next + 1) c' hc' with ⟨c, hc, hp⟩
      exact ⟨c, List.mem_cons_of_mem _ hc, hp⟩

theorem assign_mem_of_mem (next : Nat) (l : List ComputedServerFact) :
    ∀ c ∈ l, ∃ c' ∈ assignServerFactIds next l,
      c'.server_id = c.server_id ∧ c'.key = c.key ∧ c'.value = c.value := by
  induction l generalizing next with
  | nil => intro c hc; simp at hc
  | cons c0 rest ih =>
    intro c hc
    rcases List.mem_cons.mp hc with rfl | hc
    · refine ⟨{ c with id := next }, ?_, rfl, rfl, rfl⟩
      rw [assignServerFactIds]
      exact List.mem_cons_self _ _
    · rcases ih (next + 1) c hc with ⟨c', hc', hp⟩
      exact ⟨c', by rw [assignServerFactIds]; exact List.mem_cons_of_mem _ hc', hp⟩

theorem existingRow_some {db : DB} {key : String} {s : Nat} {f0 : ComputedServerFact}
    (h : existingRow db key s = some f0) :
    f0 ∈ db.serverFacts ∧ f0.server_id = s ∧ f0.key = key := by
  rw [existingRow] at h
  refine ⟨List.mem_of_find?_eq_some h, ?_⟩
  have := List.find?_some h
  simpa using this

theorem existingRow_none {db : DB} {key : String} {s : Nat}
    (h : existingRow db key s = none) :
    ∀ f ∈ db.serverFacts, ¬ (f.server_id = s ∧ f.key = key) := by
  rw [existingRow, List.find?_eq_none] at h
  intro f hf hcon
  have h2 : ¬ (f.server_id = s ∧ f.key = key) := by simpa using h f hf
  exact h2 hcon

theorem updElem_of_no_match (U : List ComputedServerFact) (f : ComputedServerFact)
    (h : ∀ g ∈ U, g.id ≠ f.id) :
    (match U.find? (fun g => g.id = f.id) with
     | some g => { f with value := g.value }
     | none => f) = f := by
  rw [List.find?_eq_none.mpr (fun g hg => by simpa using h g hg)]

/-- Well-formedness of the `ComputedServerFact` relation: primary keys are
unique and below the auto-increment counter, and the `(server, key)` unique
constraint holds. -/
def ServerFactsWF (db : DB) : Prop :=
  ((db.serverFacts.map (fun f => f.id)).Nodup) ∧
  (∀ f ∈ db.serverFacts, f.id < db.nextServerFactId) ∧
  ((db.serverFacts.map (fun f => (f.server_id, f.key))).Nodup)

/-- The reconciliation outcome for one key: every computed `(server, value)`
pair is stored in exactly one row. -/
def ReconciledKey (db : DB) (key : String) (vals : List (Nat × Val)) : Prop :=
  ∀ p ∈ vals, ((db.serverFacts.filter (fun f => f.server_id = p.1 ∧ f.key = key)).map
    (fun f => f.value)) = [p.2]

theorem reconcileServerKey_serverFacts (key : String) (vals : List (Nat × Val)) (db : DB)
    (hnd : (vals.map Prod.fst).Nodup)
    (hpairs : (db.serverFacts.map (fun f => (f.server_id, f.key))).Nodup) :
    (reconcileServerKey key vals db).serverFacts =
      (db.serverFacts ++ assignServerFactIds db.nextServerFactId
         (planCreates key vals (existingRow db key))).map
        (fun f => match (planUpdates key vals (existingRow db key)).find?
            (fun g => g.id = f.id) with
          | some g => { f with value := g.value }
          | none => f) := by
  rw [reconcileServerKey_eq key vals db hnd hpairs]
  rfl

theorem updElem_sid_key (U : List ComputedServerFact) (f : ComputedServerFact) :
    (match U.find? (fun g : ComputedServerFact => g.id = f.id) with
      | some g => ({ f with value := g.value } : ComputedServerFact)
      | none => f).server_id = f.server_id ∧
    (match U.find? (fun g : ComputedServerFact => g.id = f.id) with
      | some g => ({ f with value := g.value } : ComputedServerFact)
      | none => f).key = f.key := by
  cases U.find? (fun g : ComputedServerFact => g.id = f.id) <;> exact ⟨rfl, rfl⟩

theorem reconcileServerKey_hit (key : String) (vals : List (Nat × Val)) (db : DB)
    (hnd : (vals.map Prod.fst).Nodup) (HWF : ServerFactsWF db)
    {p : Nat × Val} (hp : p ∈ vals) :
    ((reconcileServerKey key vals db).serverFacts.filter
      (fun f => f.server_id = p.1 ∧ f.key = key)).map (fun f => f.value) = [p.2] := by
  obtain ⟨Hids, Hlt, Hpairs⟩ := HWF
  rw [reconcileServerKey_serverFacts key vals db hnd Hpairs]
  rw [List.filter_map]
  have hcomp : ∀ f ∈ (db.serverFacts ++ assignServerFactIds db.nextServerFactId
      (planCreates key vals (existingRow db key))),
      ((fun f : ComputedServerFact => decide (f.server_id = p.1 ∧ f.key = key)) ∘ (fun f =>
        match (planUpdates key vals (existingRow db key)).find? (fun g => g.id = f.id) with
        | some g => { f with value := g.value }
        | none => f)) f = decide (f.server_id = p.1 ∧ f.key = key) := by
    intro f _
    have h := updElem_sid_key (planUpdates key vals (existingRow db key)) f
    simp only [Function.comp_apply]
    rw [decide_eq_decide, h.1, h.2]
  rw [List.filter_congr hcomp]
  rw [List.filter_append]
  cases hex : existingRow db key p.1 with
  | some f0 =>
    have hf0 := existingRow_some hex
    have hdbfil : db.serverFacts.filter (fun f => f.server_id = p.1 ∧ f.key = key)
        = [f0] := by
      have h1 := filter_key_singleton (fun f : ComputedServerFact => (f.server_id, f.key))
        Hpairs hf0.1 (by
          show (f0.server_id, f0.key) = (p.1, key)
          rw [hf0.2.1, hf0.2.2])
      rw [← h1]
      refine List.filter_congr ?_
      intro f _
      rw [decide_eq_decide, Prod.mk.injEq]
    have hcrefil : (assignServerFactIds db.nextServerFactId
        (planCreates key vals (existingRow db key))).filter
        (fun f => f.server_id = p.1 ∧ f.key = key) = [] := by
      rw [List.filter_eq_nil_iff]
      intro c' hc' hP
      have hP2 : c'.server_id = p.1 ∧ c'.key = key := of_decide_eq_true hP
      rcases mem_assign_src _ _ c' hc' with ⟨c, hcC, hsid, hkey2, hval⟩
      rcases mem_planCreates.mp hcC with ⟨q, hq, hqnone, rfl⟩
      have hq1 : q.1 = p.1 := by
        have h2 : c'.server_id = q.1 := hsid
        rw [← h2, hP2.1]
      rw [hq1, hex] at hqnone
      cases hqnone
    have hfind : (planUpdates key vals (existingRow db key)).find?
        (fun g => g.id = f0.id) = some ({ f0 with value := p.2 }) := by
      refine find?_unique (mem_planUpdates.mpr ⟨p, hp, f0, hex, rfl⟩) (by simp) ?_
      intro g hg hgid
      rcases mem_planUpdates.mp hg with ⟨q, hq, f1, hq_ex, rfl⟩
      have hf1 := existingRow_some hq_ex
      have hidq : f1.id = f0.id := by
        have h3 : ({ f1 with value := q.2 } : ComputedServerFact).id = f0.id :=
          of_decide_eq_true hgid
        exact h3
      have hf1f0 : f1 = f0 := List.inj_on_of_nodup_map Hids hf1.1 hf0.1 hidq
      have hq1 : q.1 = p.1 := by rw [← hf1.2.1, hf1f0, hf0.2.1]
      have hqp : q = p := List.inj_on_of_nodup_map hnd hq hp hq1
      rw [hf1f0, hqp]
    rw [hdbfil, hcrefil, List.append_nil]
    simp only [List.map_cons, List.map_nil]
    rw [hfind]
  | none =>
    have hdbfil : db.serverFacts.filter (fun f => f.server_id = p.1 ∧ f.key = key)
        = [] := by
      rw [List.filter_eq_nil_iff]
      intro f hf hP
      exact existingRow_none hex f hf (of_decide_eq_true hP)
    have hcmem : mkServerFact p.1 key p.2 ∈ planCreates key vals (existingRow db key) :=
      mem_planCreates.mpr ⟨p, hp, hex, rfl⟩
    rcases assign_mem_of_mem db.nextServerFactId _ _ hcmem with
      ⟨x, hx, hxsid, hxkey, hxval⟩
    have hxsid2 : x.server_id = p.1 := hxsid
    have hxkey2 : x.key = key := hxkey
    have hxval2 : x.value = p.2 := hxval
    have hpairsC : ((assignServerFactIds db.nextServerFactId
        (planCreates key vals (existingRow db key))).map
          (fun c => (c.server_id, c.key))).Nodup := by
      rw [assign_pairs]
      exact planCreates_pairs_nodup key vals _ hnd
    have hcfil : (assignServerFactIds db.nextServerFactId
        (planCreates key vals (existingRow db key))).filter
        (fun f => f.server_id = p.1 ∧ f.key = key) = [x] := by
      have h1 := filter_key_singleton (fun f : ComputedServerFact => (f.server_id, f.key))
        hpairsC hx (by
          show (x.server_id, x.key) = (p.1, key)
          rw [hxsid2, hxkey2])
      rw [← h1]
      refine List.filter_congr ?_
      intro f _
      rw [decide_eq_decide, Prod.mk.injEq]
    rw [hdbfil, hcfil, List.nil_append]
    have hnomatch : ∀ g ∈ planUpdates key vals (existingRow db key), g.id ≠ x.id := by
      intro g hg
      rcases mem_planUpdates.mp hg with ⟨q, hq, f1, hq_ex, rfl⟩
      have hf1 := existingRow_some hq_ex
      have hlt1 := Hlt f1 hf1.1
      have hxbound := (mem_assign_bounds _ _ x hx).1
      intro he
      have he2 : f1.id = x.id := he
      omega
    have hupd := updElem_of_no_match (planUpdates key vals (existingRow db key)) x hnomatch
    simp only [List.map_cons, List.map_nil]
    rw [hupd, hxval2]

theorem updElem_id (U : List ComputedServerFact) (f : ComputedServerFact) :
    (match U.find? (fun g : ComputedServerFact => g.id = f.id) with
      | some g => ({ f with value := g.value } : ComputedServerFact)
      | none => f).id = f.id := by
  cases U.find? (fun g : ComputedServerFact => g.id = f.id) <;> rfl

theorem assign_length (next : Nat) (l : List ComputedServerFact) :
    (assignServerFactIds next l).length = l.length := by
  induction l generalizing next with
  | nil => rfl
  | cons c rest ih => rw [assignServerFactIds, List.length_cons, List.length_cons, ih]

theorem filter_updMap (U l : List ComputedServerFact) (s0 : Nat) (k0 : String) :
    (l.map (fun f => match U.find? (fun g => g.id = f.id) with
       | some g => { f with value := g.value }
       | none => f)).filter (fun f => f.server_id = s0 ∧ f.key = k0) =
    (l.filter (fun f => f.server_id = s0 ∧ f.key = k0)).map (fun f =>
       match U.find? (fun g => g.id = f.id) with
       | some g => { f with value := g.value }
       | none => f) := by
  rw [List.filter_map]
  congr 1
  refine List.filter_congr ?_
  intro f _
  have h := updElem_sid_key U f
  simp only [Function.comp_apply]
  rw [decide_eq_decide, h.1, h.2]

theorem reconcileServerKey_frame (key : String) (vals : List (Nat × Val)) (db : DB)
    (hnd : (vals.map Prod.fst).Nodup) (HWF : ServerFactsWF db)
    (s0 : Nat) (k0 : String) (hk : k0 ≠ key) :
    (reconcileServerKey key vals db).serverFacts.filter
      (fun f => f.server_id = s0 ∧ f.key = k0) =
    db.serverFacts.filter (fun f => f.server_id = s0 ∧ f.key = k0) := by
  obtain ⟨Hids, Hlt, Hpairs⟩ := HWF
  rw [reconcileServerKey_serverFacts key vals db hnd Hpairs, filter_updMap,
    List.filter_append]
  have hcre : (assignServerFactIds db.nextServerFactId
      (planCreates key vals (existingRow db key))).filter
      (fun f => f.server_id = s0 ∧ f.key = k0) = [] := by
    rw [List.filter_eq_nil_iff]
    intro c' hc' hP
    have hP2 : c'.server_id = s0 ∧ c'.key = k0 := of_decide_eq_true hP
    rcases mem_assign_src _ _ c' hc' with ⟨c, hcC, _, hkey2, _⟩
    rcases mem_planCreates.mp hcC with ⟨q, hq, _, rfl⟩
    apply hk
    rw [← hP2.2, hkey2]
    rfl
  rw [hcre, List.append_nil]
  have hid : ∀ f ∈ db.serverFacts.filter (fun f => f.server_id = s0 ∧ f.key = k0),
      (fun f => match (planUpdates key vals (existingRow db key)).find?
          (fun g => g.id = f.id) with
        | some g => ({ f with value := g.value } : ComputedServerFact)
        | none => f) f = f := by
    intro f hf
    have hfP : f.server_id = s0 ∧ f.key = k0 := by simpa using List.of_mem_filter hf
    refine updElem_of_no_match _ _ ?_
    intro g hg
    rcases mem_planUpdates.mp hg with ⟨q, hq, f1, hq_ex, rfl⟩
    have hf1 := existingRow_some hq_ex
    intro he
    have he2 : f1.id = f.id := he
    have hf1f : f1 = f :=
      List.inj_on_of_nodup_map Hids hf1.1 (List.mem_of_mem_filter hf) he2
    apply hk
    rw [← hfP.2, ← hf1f, hf1.2.2]
  calc List.map _ (db.serverFacts.filter (fun f => f.server_id = s0 ∧ f.key = k0))
      = List.map id (db.serverFacts.filter (fun f => f.server_id = s0 ∧ f.key = k0)) :=
        List.map_congr_left hid
    _ = _ := List.map_id _

theorem existingRow_none_pair {db : DB} {key : String} {s : Nat}
    (h : existingRow db key s = none) :
    (s, key) ∉ db.serverFacts.map (fun f => (f.server_id, f.key)) := by
  intro hmem
  rcases List.mem_map.mp hmem with ⟨f, hf, hpair⟩
  rw [Prod.mk.injEq] at hpair
  exact existingRow_none h f hf ⟨hpair.1, hpair.2⟩

theorem reconcileServerKey_WF (key : String) (vals : List (Nat × Val)) (db : DB)
    (hnd : (vals.map Prod.fst).Nodup) (HWF : ServerFactsWF db) :
    ServerFactsWF (reconcileServerKey key vals db) := by
  obtain ⟨Hids, Hlt, Hpairs⟩ := HWF
  have hface := reconcileServerKey_serverFacts key vals db hnd Hpairs
  have hnext : (reconcileServerKey key vals db).nextServerFactId =
      db.nextServerFactId + (planCreates key vals (existingRow db key)).length := by
    rw [reconcileServerKey_eq key vals db hnd Hpairs]
    rfl
  have hids_pres : ((db.serverFacts ++ assignServerFactIds db.nextServerFactId
      (planCreates key vals (existingRow db key))).map (fun f =>
        match (planUpdates key vals (existingRow db key)).find?
            (fun g => g.id = f.id) with
        | some g => { f with value := g.value }
        | none => f)).map (fun f => f.id) =
      (db.serverFacts ++ assignServerFactIds db.nextServerFactId
        (planCreates key vals (existingRow db key))).map (fun f => f.id) := by
    rw [List.map_map]
    refine List.map_congr_left ?_
    intro f _
    exact updElem_id _ f
  have hpairs_pres : ((db.serverFacts ++ assignServerFactIds db.nextServerFactId
      (planCreates key vals (existingRow db key))).map (fun f =>
        match (planUpdates key vals (existingRow db key)).find?
            (fun g => g.id = f.id) with
        | some g => { f with value := g.value }
        | none => f)).map (fun f => (f.server_id, f.key)) =
      (db.serverFacts ++ assignServerFactIds db.nextServerFactId
        (planCreates key vals (existingRow db key))).map
          (fun f => (f.server_id, f.key)) := by
    rw [List.map_map]
    refine List.map_congr_left ?_
    intro f _
    have h := updElem_sid_key (planUpdates key vals (existingRow db key)) f
    exact Prod.ext (by exact h.1) (by exact h.2)
  refine ⟨?_, ?_, ?_⟩
  · rw [hface, hids_pres, List.map_append]
    rw [List.nodup_append]
    refine ⟨Hids, assign_ids_nodup _ _, ?_⟩
    intro a ha hb
    rcases List.mem_map.mp ha with ⟨f, hf, rfl⟩
    rcases List.mem_map.mp hb with ⟨c, hc, hcid⟩
    have h1 := Hlt f hf
    have h2 := (mem_assign_bounds _ _ c hc).1
    omega
  · intro f hf
    rw [hnext]
    rw [hface] at hf
    rcases List.mem_map.mp hf with ⟨f0, hf0, rfl⟩
    have hid0 := updElem_id (planUpdates key vals (existingRow db key)) f0
    rcases List.mem_append.mp hf0 with h | h
    · have := Hlt f0 h
      omega
    · have h2 := (mem_assign_bounds _ _ f0 h).2
      omega
  · rw [hface, hpairs_pres, List.map_append, assign_pairs]
    rw [List.nodup_append]
    refine ⟨Hpairs, planCreates_pairs_nodup key vals _ hnd, ?_⟩
    intro a ha hb
    rcases List.mem_map.mp hb with ⟨c, hc, hcp⟩
    rcases mem_planCreates.mp hc with ⟨q, hq, hqnone, rfl⟩
    have : a = (q.1, key) := by rw [← hcp]; rfl
    rw [this] at ha
    exact existingRow_none_pair hqnone ha

theorem reconcileServerKey_id (key : String) (vals : List (Nat × Val)) (db : DB)
    (hnd : (vals.map Prod.fst).Nodup) (HWF : ServerFactsWF db)
    (hrec : ReconciledKey db key vals) :
    reconcileServerKey key vals db = db := by
  obtain ⟨Hids, Hlt, Hpairs⟩ := HWF
  have hexv : ∀ p ∈ vals, ∃ f0, existingRow db key p.1 = some f0 ∧ f0.value = p.2 := by
    intro p hp
    have h := hrec p hp
    cases hfil : db.serverFacts.filter (fun f => f.server_id = p.1 ∧ f.key = key) with
    | nil => rw [hfil] at h; cases h
    | cons f0 rest =>
      rw [hfil, List.map_cons] at h
      have hval : f0.value = p.2 := (List.cons.inj h).1
      have hmem2 : f0 ∈ db.serverFacts.filter
          (fun f => f.server_id = p.1 ∧ f.key = key) := by
        rw [hfil]
        exact List.mem_cons_self _ _
      have hmem : f0 ∈ db.serverFacts := List.mem_of_mem_filter hmem2
      have hpred : f0.server_id = p.1 ∧ f0.key = key := by
        simpa using List.of_mem_filter hmem2
      refine ⟨f0, ?_, hval⟩
      rw [existingRow]
      refine find?_unique hmem (by exact decide_eq_true hpred) ?_
      intro y hy hpy
      have hpy2 : y.server_id = p.1 ∧ y.key = key := of_decide_eq_true hpy
      refine List.inj_on_of_nodup_map Hpairs hy hmem ?_
      rw [Prod.mk.injEq]
      exact ⟨by rw [hpy2.1, hpred.1], by rw [hpy2.2, hpred.2]⟩
  have hC : planCreates key vals (existingRow db key) = [] := by
    rw [List.eq_nil_iff_forall_not_mem]
    intro c hc
    rcases mem_planCreates.mp hc with ⟨p, hp, hnone, _⟩
    rcases hexv p hp with ⟨f0, hsome, _⟩
    rw [hnone] at hsome
    cases hsome
  rw [reconcileServerKey_eq key vals db hnd Hpairs, hC]
  have h1 : bulkCreateServerFacts [] db = db := by
    rw [bulkCreateServerFacts]
    show { db with serverFacts := db.serverFacts ++ [],
                   nextServerFactId := db.nextServerFactId } = db
    rw [List.append_nil]
  rw [h1, bulkUpdateServerFacts]
  have hmap : db.serverFacts.map (fun f =>
      match (planUpdates key vals (existingRow db key)).find?
          (fun g => g.id = f.id) with
      | some g => { f with value := g.value }
      | none => f) = db.serverFacts := by
    refine (List.map_congr_left ?_).trans (List.map_id _)
    intro f hf
    by_cases hfp : ∃ p ∈ vals, f.server_id = p.1 ∧ f.key = key
    · rcases hfp with ⟨p, hp, hfs, hfk⟩
      rcases hexv p hp with ⟨f0, hsome, hval⟩
      have hf0 := existingRow_some hsome
      have hff0 : f = f0 := by
        refine List.inj_on_of_nodup_map Hpairs hf hf0.1 ?_
        rw [Prod.mk.injEq]
        exact ⟨by rw [hfs, hf0.2.1], by rw [hfk, hf0.2.2]⟩
      have hrow : ({ f0 with value := p.2 } : ComputedServerFact) = f := by
        rw [← hval, hff0]
      have hfmem : f ∈ planUpdates key vals (existingRow db key) :=
        hrow ▸ mem_planUpdates.mpr ⟨p, hp, f0, hsome, rfl⟩
      have hfind : (planUpdates key vals (existingRow db key)).find?
          (fun g => g.id = f.id) = some f := by
        refine find?_unique hfmem (by simp) ?_
        intro g hg hgid
        rcases mem_planUpdates.mp hg with ⟨q, hq, f1, hq_ex, rfl⟩
        have hf1 := existingRow_some hq_ex
        have he2 : f1.id = f.id := by
          have h3 : ({ f1 with value := q.2 } : ComputedServerFact).id = f.id :=
            of_decide_eq_true hgid
          exact h3
        have hf1f : f1 = f := List.inj_on_of_nodup_map Hids hf1.1 hf he2
        have hq1 : q.1 = p.1 := by rw [← hf1.2.1, hf1f, hfs]
        have hqp : q = p := List.inj_on_of_nodup_map hnd hq hp hq1
        rw [hf1f, hqp, ← hff0] at *
        rw [← hrow, hff0]
      show (match (planUpdates key vals (existingRow db key)).find?
          (fun g => g.id = f.id) with
        | some g => ({ f with value := g.value } : ComputedServerFact)
        | none => f) = f
      rw [hfind]
    · refine updElem_of_no_match _ _ ?_
      intro g hg
      rcases mem_planUpdates.mp hg with ⟨q, hq, f1, hq_ex, rfl⟩
      have hf1 := existingRow_some hq_ex
      intro he
      have he2 : f1.id = f.id := he
      have hf1f : f1 = f := List.inj_on_of_nodup_map Hids hf1.1 hf he2
      exact hfp ⟨q, hq, by rw [← hf1f]; exact ⟨hf1.2.1, hf1.2.2⟩⟩
  rw [hmap]

theorem foldReconcile_preserves_reconciled
    (entries : List (String × List (Nat × Val))) :
    ∀ (db : DB) (k0 : String) (vals0 : List (Nat × Val)),
    (∀ e ∈ entries, e.1 ≠ k0) →
    (∀ e ∈ entries, (e.2.map Prod.fst).Nodup) →
    ServerFactsWF db → ReconciledKey db k0 vals0 →
    ReconciledKey (entries.foldl (fun d kv => reconcileServerKey kv.1 kv.2 d) db)
      k0 vals0 := by
  induction entries with
  | nil => intro db k0 vals0 _ _ _ h; exact h
  | cons e rest ih =>
    intro db k0 vals0 hne hnd HWF hrec
    rw [List.foldl_cons]
    refine ih _ _ _ (fun e' he' => hne e' (List.mem_cons_of_mem _ he'))
      (fun e' he' => hnd e' (List.mem_cons_of_mem _ he'))
      (reconcileServerKey_WF e.1 e.2 db (hnd e (List.mem_cons_self _ _)) HWF) ?_
    intro p hp
    rw [reconcileServerKey_frame e.1 e.2 db (hnd e (List.mem_cons_self _ _)) HWF
      p.1 k0 (fun hh => hne e (List.mem_cons_self _ _) hh.symm)]
    exact hrec p hp

theorem foldReconcile_WF (entries : List (String × List (Nat × Val))) :
    ∀ (db : DB), (∀ e ∈ entries, (e.2.map Prod.fst).Nodup) → ServerFactsWF db →
    ServerFactsWF (entries.foldl (fun d kv => reconcileServerKey kv.1 kv.2 d) db) := by
  induction entries with
  | nil => intro db _ h; exact h
  | cons e rest ih =>
    intro db hnd HWF
    rw [List.foldl_cons]
    exact ih _ (fun e' he' => hnd e' (List.mem_cons_of_mem _ he'))
      (reconcileServerKey_WF e.1 e.2 db (hnd e (List.mem_cons_self _ _)) HWF)

theorem foldReconcile_correct (entries : List (String × List (Nat × Val)))
    (hkeys : (entries.map Prod.fst).Nodup)
    (hnd : ∀ e ∈ entries, (e.2.map Prod.fst).Nodup) :
    ∀ (db : DB), ServerFactsWF db →
    ∀ e ∈ entries,
    ReconciledKey (entries.foldl (fun d kv => reconcileServerKey kv.1 kv.2 d) db)
      e.1 e.2 := by
  induction entries with
  | nil => intro db _ e he; simp at he
  | cons e0 rest ih =>
    intro db HWF e he
    simp only [List.map_cons, List.nodup_cons] at hkeys
    rw [List.foldl_cons]
    rcases List.mem_cons.mp he with rfl | he
    · refine foldReconcile_preserves_reconciled rest _ _ _
        (fun e' he' hh => hkeys.1 (by rw [← hh]; exact List.mem_map.mpr ⟨e', he', rfl⟩))
        (fun e' he' => hnd e' (List.mem_cons_of_mem _ he'))
        (reconcileServerKey_WF e.1 e.2 db (hnd e (List.mem_cons_self _ _)) HWF) ?_
      intro p hp
      exact reconcileServerKey_hit e.1 e.2 db (hnd e (List.mem_cons_self _ _)) HWF hp
    · exact ih hkeys.2 (fun e' he' => hnd e' (List.mem_cons_of_mem _ he')) _
        (reconcileServerKey_WF e0.1 e0.2 db (hnd e0 (List.mem_cons_self _ _)) HWF) e he

theorem foldReconcile_id (entries : List (String × List (Nat × Val))) :
    ∀ (db1 : DB), (∀ e ∈ entries, (e.2.map Prod.fst).Nodup) → ServerFactsWF db1 →
    (∀ e ∈ entries, ReconciledKey db1 e.1 e.2) →
    entries.foldl (fun d kv => reconcileServerKey kv.1 kv.2 d) db1 = db1 := by
  induction entries with
  | nil => intro db1 _ _ _; rfl
  | cons e rest ih =>
    intro db1 hnd HWF hrec
    rw [List.foldl_cons,
      reconcileServerKey_id e.1 e.2 db1 (hnd e (List.mem_cons_self _ _)) HWF
        (hrec e (List.mem_cons_self _ _))]
    exact ih db1 (fun e' he' => hnd e' (List.mem_cons_of_mem _ he')) HWF
      (fun e' he' => hrec e' (List.mem_cons_of_mem _ he'))

/-! ### The rearrangement `facts_by_key` -/

/-- Lookup of the computed value for `(key, server)` in the rearranged
`facts_by_key` dictionary. -/
def getFBK (m : List (String × List (Nat × Val))) (k : String) (s : Nat) : Option Val :=
  (dictGet? m k).bind (fun svals => dictGet? svals s)

theorem dictGet?_eq_none_of_not_mem_keys {α β : Type} [DecidableEq α]
    {m : List (α × β)} {k : α} (h : k ∉ m.map Prod.fst) : dictGet? m k = none := by
  cases hd : dictGet? m k with
  | none => rfl
  | some v =>
    exact absurd (List.mem_map.mpr ⟨(k, v), dictGet?_eq_some_mem hd, rfl⟩) h

theorem getFBK_innerFold (kvs : List (String × Val)) (s0 : Nat) :
    ∀ (acc : List (String × List (Nat × Val))) (k : String) (s : Nat),
    getFBK (kvs.foldl (fun a kv =>
      dictSet a kv.1 (dictSet (dictGetD a kv.1 []) s0 kv.2)) acc) k s =
      if s = s0 then
        (((kvs.filter (fun kv => kv.1 = k)).map (fun kv => kv.2)).getLast?).or
          (getFBK acc k s)
      else getFBK acc k s := by
  induction kvs with
  | nil =>
    intro acc k s
    by_cases hs : s = s0 <;> simp [hs]
  | cons kv rest ih =>
    intro acc k s
    rw [List.foldl_cons, ih]
    by_cases hk : kv.1 = k
    · by_cases hs : s = s0
      · rw [if_pos hs, if_pos hs, List.filter_cons_of_pos (by simp [hk]),
          List.map_cons, getLast?_cons_or, Option.or_assoc]
        congr 1
        rw [getFBK, hk, dictGet?_dictSet_self, Option.some_bind, hs,
          dictGet?_dictSet_self]
        rfl
      · rw [if_neg hs, if_neg hs]
        rw [getFBK, hk, dictGet?_dictSet_self, Option.some_bind,
          dictGet?_dictSet_ne _ _ _ _ hs]
        rw [getFBK, dictGetD]
        cases hacc : dictGet? acc k with
        | none => simp [dictGet?]
        | some doc => simp
    · have hgf : getFBK (dictSet acc kv.1 (dictSet (dictGetD acc kv.1 []) s0 kv.2)) k s =
          getFBK acc k s := by
        rw [getFBK, dictGet?_dictSet_ne _ _ _ _ (fun he => hk he.symm)]
        rfl
      rw [hgf, List.filter_cons_of_neg (by simp [hk])]

theorem getLast?_filter_eq_dictGet? (kvs : List (String × Val)) (k : String)
    (hnd : (kvs.map Prod.fst).Nodup) :
    ((kvs.filter (fun kv => kv.1 = k)).map (fun kv => kv.2)).getLast? =
      dictGet? kvs k := by
  induction kvs with
  | nil => rfl
  | cons kv rest ih =>
    simp only [List.map_cons, List.nodup_cons] at hnd
    by_cases hk : kv.1 = k
    · rw [List.filter_cons_of_pos (by simp [hk])]
      have hrest : rest.filter (fun kv => kv.1 = k) = [] := by
        rw [List.filter_eq_nil_iff]
        intro q hq hqk
        exact hnd.1 (by
          rw [hk]
          have : q.1 = k := of_decide_eq_true hqk
          exact this ▸ List.mem_map.mpr ⟨q, hq, rfl⟩)
      rw [hrest, dictGet?, if_pos hk]
      rfl
    · rw [List.filter_cons_of_neg (by simp [hk]), dictGet?, if_neg hk, ih hnd.2]

theorem getFBK_outerFold (facts : List (Nat × List (String × Val))) :
    ∀ (acc : List (String × List (Nat × Val))) (k : String) (s : Nat),
    (facts.map Prod.fst).Nodup →
    (∀ sf ∈ facts, (sf.2.map Prod.fst).Nodup) →
    getFBK (facts.foldl (fun acc sf =>
      sf.2.foldl (fun acc2 kv =>
        dictSet acc2 kv.1 (dictSet (dictGetD acc2 kv.1 []) sf.1 kv.2)) acc) acc) k s =
      match dictGet? facts s with
      | some kvs => (dictGet? kvs k).or (getFBK acc k s)
      | none => getFBK acc k s := by
  induction facts with
  | nil => intro acc k s _ _; rfl
  | cons sf rest ih =>
    intro acc k s hnd hin
    simp only [List.map_cons, List.nodup_cons] at hnd
    rw [List.foldl_cons, ih _ _ _ hnd.2 (fun sf' h => hin sf' (List.mem_cons_of_mem _ h))]
    by_cases hs : s = sf.1
    · have hrest : dictGet? rest s = none :=
        dictGet?_eq_none_of_not_mem_keys (by rw [hs]; exact hnd.1)
      have hhead : dictGet? (sf :: rest) s = some sf.2 := by
        rw [dictGet?, if_pos hs.symm]
      rw [hrest, hhead]
      rw [getFBK_innerFold sf.2 sf.1 acc k s, if_pos hs,
        getLast?_filter_eq_dictGet? sf.2 k (hin sf (List.mem_cons_self _ _))]
    · have hhead : dictGet? (sf :: rest) s = dictGet? rest s := by
        rw [dictGet?, if_neg (fun he => hs he.symm)]
      rw [hhead, getFBK_innerFold sf.2 sf.1 acc k s, if_neg hs]

theorem mem_dictSet_val {α β : Type} [DecidableEq α] {m : List (α × β)} {k : α} {v : β}
    {p : α × β} (h : p ∈ dictSet m k v) : p ∈ m ∨ p.2 = v := by
  rw [dictSet] at h
  split at h
  · rcases List.mem_map.mp h with ⟨q, hq, hqe⟩
    by_cases hqk : q.1 = k
    · right
      rw [if_pos hqk] at hqe
      rw [← hqe]
    · left
      rw [if_neg hqk] at hqe
      exact hqe ▸ hq
  · rcases List.mem_append.mp h with h | h
    · exact Or.inl h
    · right
      rcases List.mem_singleton.mp h with rfl
      rfl

theorem factsByKey_inner_nodup (facts : List (Nat × List (String × Val))) :
    ∀ (acc : List (String × List (Nat × Val))),
    (∀ e ∈ acc, (e.2.map Prod.fst).Nodup) →
    ∀ e ∈ facts.foldl (fun acc sf =>
        sf.2.foldl (fun acc2 kv =>
          dictSet acc2 kv.1 (dictSet (dictGetD acc2 kv.1 []) sf.1 kv.2)) acc) acc,
    (e.2.map Prod.fst).Nodup := by
  have hinner : ∀ (kvs : List (String × Val)) (s0 : Nat)
      (acc2 : List (String × List (Nat × Val))),
      (∀ e ∈ acc2, (e.2.map Prod.fst).Nodup) →
      ∀ e ∈ kvs.foldl (fun a kv =>
        dictSet a kv.1 (dictSet (dictGetD a kv.1 []) s0 kv.2)) acc2,
      (e.2.map Prod.fst).Nodup := by
    intro kvs s0
    induction kvs with
    | nil => intro acc2 h e he; exact h e he
    | cons kv rest ih =>
      intro acc2 h e he
      rw [List.foldl_cons] at he
      refine ih _ ?_ e he
      intro e' he'
      rcases mem_dictSet_val he' with he' | he'
      · exact h e' he'
      · rw [he']
        refine nodup_keys_dictSet _ _ _ ?_
        rw [dictGetD]
        cases hget : dictGet? acc2 kv.1 with
        | none => exact List.nodup_nil
        | some doc => exact h _ (dictGet?_eq_some_mem hget)
  induction facts with
  | nil => intro acc h e he; exact h e he
  | cons sf rest ih =>
    intro acc h e he
    rw [List.foldl_cons] at he
    exact ih _ (fun e' he' => hinner sf.2 sf.1 acc h e' he') e he

theorem factsByKey_keys_nodup (facts : List (Nat × List (String × Val))) :
    ∀ (acc : List (String × List (Nat × Val))),
    (acc.map Prod.fst).Nodup →
    ((facts.foldl (fun acc sf =>
        sf.2.foldl (fun acc2 kv =>
          dictSet acc2 kv.1 (dictSet (dictGetD acc2 kv.1 []) sf.1 kv.2)) acc) acc).map
      Prod.fst).Nodup := by
  have hinner : ∀ (kvs : List (String × Val)) (s0 : Nat)
      (acc2 : List (String × List (Nat × Val))),
      (acc2.map Prod.fst).Nodup →
      ((kvs.foldl (fun a kv =>
        dictSet a kv.1 (dictSet (dictGetD a kv.1 []) s0 kv.2)) acc2).map Prod.fst).Nodup := by
    intro kvs s0
    induction kvs with
    | nil => intro acc2 h; exact h
    | cons kv rest ih =>
      intro acc2 h
      rw [List.foldl_cons]
      exact ih _ (nodup_keys_dictSet _ _ _ h)
  induction facts with
  | nil => intro acc h; exact h
  | cons sf rest ih =>
    intro acc h
    rw [List.foldl_cons]
    exact ih _ (hinner sf.2 sf.1 acc h)

/-! ### Upload-fact reconciliation, in closed form -/

/-- The computed upload-fact triples `(upload_id, key, value)` in the
iteration order of the triple loop of `extract_upload_facts`. -/
def uploadTriples (facts : List (Nat × List (Nat × List (String × Val)))) :
    List (Nat × String × Val) :=
  facts.flatMap (fun sf => sf.2.flatMap (fun uf =>
    uf.2.map (fun kv => (uf.1, kv.1, kv.2))))

def uploadPlanCreates (trips : List (Nat × String × Val)) (db : DB) :
    List ComputedUploadFact :=
  trips.flatMap (fun t =>
    match check_if_upload_fact_exists t.2.1 t.1 db with
    | none => [mkUploadFact t.1 t.2.1 t.2.2]
    | some _ => [])

def uploadPlanUpdates (trips : List (Nat × String × Val)) (db : DB) :
    List ComputedUploadFact :=
  trips.flatMap (fun t =>
    match check_if_upload_fact_exists t.2.1 t.1 db with
    | some f => [{ f with value := t.2.2 }]
    | none => [])

theorem flatMap_flatMap {α β γ : Type} (l : List α) (f : α → List β) (g : β → List γ) :
    (l.flatMap f).flatMap g = l.flatMap (fun x => (f x).flatMap g) := by
  induction l with
  | nil => rfl
  | cons a l ih => rw [List.flatMap_cons, List.flatMap_append, ih, List.flatMap_cons]

theorem uploadFactsPlan_eq (facts : List (Nat × List (Nat × List (String × Val))))
    (db : DB) :
    uploadFactsPlan facts db =
      (uploadPlanCreates (uploadTriples facts) db,
       uploadPlanUpdates (uploadTriples facts) db) := by
  have h3 : ∀ (u : Nat) (kvs : List (String × Val))
      (acc : List ComputedUploadFact × List ComputedUploadFact),
      kvs.foldl (fun acc3 kv =>
        match check_if_upload_fact_exists kv.1 u db with
        | none => (acc3.1 ++ [mkUploadFact u kv.1 kv.2], acc3.2)
        | some f => (acc3.1, acc3.2 ++ [{ f with value := kv.2 }])) acc =
      (acc.1 ++ kvs.flatMap (fun kv =>
         match check_if_upload_fact_exists kv.1 u db with
         | none => [mkUploadFact u kv.1 kv.2]
         | some _ => []),
       acc.2 ++ kvs.flatMap (fun kv =>
         match check_if_upload_fact_exists kv.1 u db with
         | some f => [{ f with value := kv.2 }]
         | none => [])) := by
    intro u kvs acc
    refine foldl_pair_append _ _ _ ?_ kvs acc
    intro acc3 kv
    cases hc : check_if_upload_fact_exists kv.1 u db with
    | none => simp [hc]
    | some f => simp [hc]
  have h2 : ∀ (ufs : List (Nat × List (String × Val)))
      (acc : List ComputedUploadFact × List ComputedUploadFact),
      ufs.foldl (fun acc2 uf =>
        uf.2.foldl (fun acc3 kv =>
          match check_if_upload_fact_exists kv.1 uf.1 db with
          | none => (acc3.1 ++ [mkUploadFact uf.1 kv.1 kv.2], acc3.2)
          | some f => (acc3.1, acc3.2 ++ [{ f with value := kv.2 }])) acc2) acc =
      (acc.1 ++ ufs.flatMap (fun uf => uf.2.flatMap (fun kv =>
         match check_if_upload_fact_exists kv.1 uf.1 db with
         | none => [mkUploadFact uf.1 kv.1 kv.2]
         | some _ => [])),
       acc.2 ++ ufs.flatMap (fun uf => uf.2.flatMap (fun kv =>
         match check_if_upload_fact_exists kv.1 uf.1 db with
         | some f => [{ f with value := kv.2 }]
         | none => []))) := by
    intro ufs acc
    refine foldl_pair_append _ _ _ ?_ ufs acc
    intro acc2 uf
    exact h3 uf.1 uf.2 acc2
  have h1 : uploadFactsPlan facts db =
      (([] : List ComputedUploadFact) ++ facts.flatMap (fun sf =>
         sf.2.flatMap (fun uf => uf.2.flatMap (fun kv =>
           match check_if_upload_fact_exists kv.1 uf.1 db with
           | none => [mkUploadFact uf.1 kv.1 kv.2]
           | some _ => []))),
       ([] : List ComputedUploadFact) ++ facts.flatMap (fun sf =>
         sf.2.flatMap (fun uf => uf.2.flatMap (fun kv =>
           match check_if_upload_fact_exists kv.1 uf.1 db with
           | some f => [{ f with value := kv.2 }]
           | none => [])))) := by
    rw [uploadFactsPlan]
    refine foldl_pair_append _ _ _ ?_ facts ([], [])
    intro acc sf
    exact h2 sf.2 acc
  rw [h1]
  simp only [List.nil_append]
  have hC : uploadPlanCreates (uploadTriples facts) db = facts.flatMap (fun sf =>
      sf.2.flatMap (fun uf => uf.2.flatMap (fun kv =>
        match check_if_upload_fact_exists kv.1 uf.1 db with
        | none => [mkUploadFact uf.1 kv.1 kv.2]
        | some _ => []))) := by
    rw [uploadPlanCreates, uploadTriples, flatMap_flatMap]
    refine flatMap_congr' ?_
    intro sf _
    rw [flatMap_flatMap]
    refine flatMap_congr' ?_
    intro uf _
    rw [List.flatMap_map]
  have hU : uploadPlanUpdates (uploadTriples facts) db = facts.flatMap (fun sf =>
      sf.2.flatMap (fun uf => uf.2.flatMap (fun kv =>
        match check_if_upload_fact_exists kv.1 uf.1 db with
        | some f => [{ f with value := kv.2 }]
        | none => []))) := by
    rw [uploadPlanUpdates, uploadTriples, flatMap_flatMap]
    refine flatMap_congr' ?_
    intro sf _
    rw [flatMap_flatMap]
    refine flatMap_congr' ?_
    intro uf _
    rw [List.flatMap_map]
  rw [hC, hU]

theorem mem_uploadPlanCreates {trips : List (Nat × String × Val)} {db : DB}
    {c : ComputedUploadFact} :
    c ∈ uploadPlanCreates trips db ↔
      ∃ t ∈ trips, check_if_upload_fact_exists t.2.1 t.1 db = none ∧
        c = mkUploadFact t.1 t.2.1 t.2.2 := by
  rw [uploadPlanCreates, List.mem_flatMap]
  constructor
  · rintro ⟨t, ht, hc⟩
    cases hl : check_if_upload_fact_exists t.2.1 t.1 db with
    | some f => rw [hl] at hc; simp at hc
    | none =>
      rw [hl] at hc
      rcases List.mem_singleton.mp hc with rfl
      exact ⟨t, ht, hl, rfl⟩
  · rintro ⟨t, ht, hl, rfl⟩
    exact ⟨t, ht, by rw [hl]; exact List.mem_singleton.mpr rfl⟩

theorem mem_uploadPlanUpdates {trips : List (Nat × String × Val)} {db : DB}
    {g : ComputedUploadFact} :
    g ∈ uploadPlanUpdates trips db ↔
      ∃ t ∈ trips, ∃ f0, check_if_upload_fact_exists t.2.1 t.1 db = some f0 ∧
        g = { f0 with value := t.2.2 } := by
  rw [uploadPlanUpdates, List.mem_flatMap]
  constructor
  · rintro ⟨t, ht, hg⟩
    cases hl : check_if_upload_fact_exists t.2.1 t.1 db with
    | some f0 =>
      rw [hl] at hg
      rcases List.mem_singleton.mp hg with rfl
      exact ⟨t, ht, f0, hl, rfl⟩
    | none => rw [hl] at hg; simp at hg
  · rintro ⟨t, ht, f0, hl, rfl⟩
    exact ⟨t, ht, by rw [hl]; exact List.mem_singleton.mpr rfl⟩

theorem uploadPlanCreates_pairs (trips : List (Nat × String × Val)) (db : DB) :
    (uploadPlanCreates trips db).map (fun c => (c.upload_id, c.key)) =
      (trips.filter (fun t =>
        (check_if_upload_fact_exists t.2.1 t.1 db).isNone)).map
          (fun t => (t.1, t.2.1)) := by
  induction trips with
  | nil => rfl
  | cons t rest ih =>
    rw [uploadPlanCreates, List.flatMap_cons, List.map_append]
    cases hl : check_if_upload_fact_exists t.2.1 t.1 db with
    | some f =>
      rw [List.filter_cons_of_neg (by simp [hl])]
      show [] ++ _ = _
      rw [List.nil_append, ← uploadPlanCreates, ih]
    | none =>
      rw [List.filter_cons_of_pos (by simp [hl]), List.map_cons]
      show [(t.1, t.2.1)] ++ _ = _
      rw [← uploadPlanCreates, ih]
      rfl

theorem uploadPlanCreates_pairs_nodup (trips : List (Nat × String × Val)) (db : DB)
    (hnd : (trips.map (fun t => (t.1, t.2.1))).Nodup) :
    ((uploadPlanCreates trips db).map (fun c => (c.upload_id, c.key))).Nodup := by
  rw [uploadPlanCreates_pairs]
  exact ((List.filter_sublist trips).map _).nodup hnd

theorem assignU_pairs (next : Nat) (l : List ComputedUploadFact) :
    (assignUploadFactIds next l).map (fun c => (c.upload_id, c.key)) =
      l.map (fun c => (c.upload_id, c.key)) := by
  induction l generalizing next with
  | nil => rfl
  | cons c rest ih => rw [assignUploadFactIds, List.map_cons, List.map_cons, ih]

theorem memU_assign_bounds (next : Nat) (l : List ComputedUploadFact) :
    ∀ c ∈ assignUploadFactIds next l, next ≤ c.id ∧ c.id < next + l.length := by
  induction l generalizing next with
  | nil => intro c hc; simp [assignUploadFactIds] at hc
  | cons c0 rest ih =>
    intro c hc
    rw [assignUploadFactIds] at hc
    rcases List.mem_cons.mp hc with rfl | hc
    · show next ≤ next ∧ next < next + (c0 :: rest).length
      simp only [List.length_cons]
      omega
    · have := ih (next + 1) c hc
      constructor
      · omega
      · simp only [List.length_cons]
        omega

theorem assignU_ids_nodup (next : Nat) (l : List ComputedUploadFact) :
    ((assignUploadFactIds next l).map (fun c => c.id)).Nodup := by
  induction l generalizing next with
  | nil => exact List.nodup_nil
  | cons c0 rest ih =>
    rw [assignUploadFactIds, List.map_cons, List.nodup_cons]
    refine ⟨?_, ih (next + 1)⟩
    intro hmem
    rcases List.mem_map.mp hmem with ⟨c, hc, hid⟩
    have hid2 : c.id = next := hid
    have := (memU_assign_bounds (next + 1) rest c hc).1
    omega

theorem memU_assign_src (next : Nat) (l : List ComputedUploadFact) :
    ∀ c' ∈ assignUploadFactIds next l, ∃ c ∈ l,
      c'.upload_id = c.upload_id ∧ c'.key = c.key ∧ c'.value = c.value := by
  induction l generalizing next with
  | nil => intro c' hc'; simp [assignUploadFactIds] at hc'
  | cons c0 rest ih =>
    intro c' hc'
    rw [assignUploadFactIds] at hc'
    rcases List.mem_cons.mp hc' with rfl | hc'
    · exact ⟨c0, List.mem_cons_self _ _, rfl, rfl, rfl⟩
    · rcases ih (next + 1) c' hc' with ⟨c, hc, hp⟩
      exact ⟨c, List.mem_cons_of_mem _ hc, hp⟩

theorem assignU_mem_of_mem (next : Nat) (l : List ComputedUploadFact) :
    ∀ c ∈ l, ∃ c' ∈ assignUploadFactIds next l,
      c'.upload_id = c.upload_id ∧ c'.key = c.key ∧ c'.value = c.value := by
  induction l generalizing next with
  | nil => intro c hc; simp at hc
  | cons c0 rest ih =>
    intro c hc
    rcases List.mem_cons.mp hc with rfl | hc
    · refine ⟨{ c with id := next }, ?_, rfl, rfl, rfl⟩
      rw [assignUploadFactIds]
      exact List.mem_cons_self _ _
    · rcases ih (next + 1) c hc with ⟨c', hc', hp⟩
      exact ⟨c', by rw [assignUploadFactIds]; exact List.mem_cons_of_mem _ hc', hp⟩

theorem check_some {db : DB} {key : String} {u : Nat} {f0 : ComputedUploadFact}
    (h : check_if_upload_fact_exists key u db = some f0) :
    f0 ∈ db.uploadFacts ∧ f0.key = key ∧ f0.upload_id = u := by
  rw [check_if_upload_fact_exists] at h
  refine ⟨List.mem_of_find?_eq_some h, ?_⟩
  have := List.find?_some h
  simpa using this

theorem check_none {db : DB} {key : String} {u : Nat}
    (h : check_if_upload_fact_exists key u db = none) :
    ∀ f ∈ db.uploadFacts, ¬ (f.key = key ∧ f.upload_id = u) := by
  rw [check_if_upload_fact_exists, List.find?_eq_none] at h
  intro f hf hcon
  have h2 : ¬ (f.key = key ∧ f.upload_id = u) := by simpa using h f hf
  exact h2 hcon

theorem check_none_pair {db : DB} {key : String} {u : Nat}
    (h : check_if_upload_fact_exists key u db = none) :
    (u, key) ∉ db.uploadFacts.map (fun f => (f.upload_id, f.key)) := by
  intro hmem
  rcases List.mem_map.mp hmem with ⟨f, hf, hpair⟩
  rw [Prod.mk.injEq] at hpair
  exact check_none h f hf ⟨hpair.2, hpair.1⟩

theorem updElemU_of_no_match (U : List ComputedUploadFact) (f : ComputedUploadFact)
    (h : ∀ g ∈ U, g.id ≠ f.id) :
    (match U.find? (fun g => g.id = f.id) with
     | some g => { f with value := g.value }
     | none => f) = f := by
  rw [List.find?_eq_none.mpr (fun g hg => by simpa using h g hg)]

theorem updElemU_uid_key (U : List ComputedUploadFact) (f : ComputedUploadFact) :
    (match U.find? (fun g : ComputedUploadFact => g.id = f.id) with
      | some g => ({ f with value := g.value } : ComputedUploadFact)
      | none => f).upload_id = f.upload_id ∧
    (match U.find? (fun g : ComputedUploadFact => g.id = f.id) with
      | some g => ({ f with value := g.value } : ComputedUploadFact)
      | none => f).key = f.key := by
  cases U.find? (fun g : ComputedUploadFact => g.id = f.id) <;> exact ⟨rfl, rfl⟩

theorem updElemU_id (U : List ComputedUploadFact) (f : ComputedUploadFact) :
    (match U.find? (fun g : ComputedUploadFact => g.id = f.id) with
      | some g => ({ f with value := g.value } : ComputedUploadFact)
      | none => f).id = f.id := by
  cases U.find? (fun g : ComputedUploadFact => g.id = f.id) <;> rfl

theorem filter_updMapU (U l : List ComputedUploadFact) (u0 : Nat) (k0 : String) :
    (l.map (fun f => match U.find? (fun g => g.id = f.id) with
       | some g => { f with value := g.value }
       | none => f)).filter (fun f => f.upload_id = u0 ∧ f.key = k0) =
    (l.filter (fun f => f.upload_id = u0 ∧ f.key = k0)).map (fun f =>
       match U.find? (fun g => g.id = f.id) with
       | some g => { f with value := g.value }
       | none => f) := by
  rw [List.filter_map]
  congr 1
  refine List.filter_congr ?_
  intro f _
  have h := updElemU_uid_key U f
  simp only [Function.comp_apply]
  rw [decide_eq_decide, h.1, h.2]

/-- Well-formedness of the `ComputedUploadFact` relation: primary keys are
unique and below the auto-increment counter, and each `(upload, key)` pair
is stored at most once. -/
def UploadFactsWF (db : DB) : Prop :=
  ((db.uploadFacts.map (fun f => f.id)).Nodup) ∧
  (∀ f ∈ db.uploadFacts, f.id < db.nextUploadFactId) ∧
  ((db.uploadFacts.map (fun f => (f.upload_id, f.key))).Nodup)

/-- The reconciliation outcome on the upload side: every computed triple
`(upload, key, value)` is stored in exactly one row. -/
def ReconciledUploads (db : DB) (trips : List (Nat × String × Val)) : Prop :=
  ∀ t ∈ trips, ((db.uploadFacts.filter
    (fun f => f.upload_id = t.1 ∧ f.key = t.2.1)).map (fun f => f.value)) = [t.2.2]

theorem extract_upload_facts_uploadFacts
    (facts : List (Nat × List (Nat × List (String × Val)))) (db : DB) :
    (extract_upload_facts facts db).uploadFacts =
      (db.uploadFacts ++ assignUploadFactIds db.nextUploadFactId
         (uploadPlanCreates (uploadTriples facts) db)).map
        (fun f => match (uploadPlanUpdates (uploadTriples facts) db).find?
            (fun g => g.id = f.id) with
          | some g => { f with value := g.value }
          | none => f) := by
  rw [extract_upload_facts, uploadFactsPlan_eq]
  rfl

theorem extract_upload_facts_hit
    (facts : List (Nat × List (Nat × List (String × Val)))) (db : DB)
    (hnd : ((uploadTriples facts).map (fun t => (t.1, t.2.1))).Nodup)
    (HWF : UploadFactsWF db)
    {t : Nat × String × Val} (ht : t ∈ uploadTriples facts) :
    ((extract_upload_facts facts db).uploadFacts.filter
      (fun f => f.upload_id = t.1 ∧ f.key = t.2.1)).map (fun f => f.value) = [t.2.2] := by
  obtain ⟨Hids, Hlt, Hpairs⟩ := HWF
  rw [extract_upload_facts_uploadFacts, filter_updMapU, List.filter_append]
  cases hex : check_if_upload_fact_exists t.2.1 t.1 db with
  | some f0 =>
    have hf0 := check_some hex
    have hdbfil : db.uploadFacts.filter (fun f => f.upload_id = t.1 ∧ f.key = t.2.1)
        = [f0] := by
      have h1 := filter_key_singleton (fun f : ComputedUploadFact => (f.upload_id, f.key))
        Hpairs hf0.1 (by
          show (f0.upload_id, f0.key) = (t.1, t.2.1)
          rw [hf0.2.1, hf0.2.2])
      rw [← h1]
      refine List.filter_congr ?_
      intro f _
      rw [decide_eq_decide, Prod.mk.injEq]
    have hcrefil : (assignUploadFactIds db.nextUploadFactId
        (uploadPlanCreates (uploadTriples facts) db)).filter
        (fun f => f.upload_id = t.1 ∧ f.key = t.2.1) = [] := by
      rw [List.filter_eq_nil_iff]
      intro c' hc' hP
      have hP2 : c'.upload_id = t.1 ∧ c'.key = t.2.1 := of_decide_eq_true hP
      rcases memU_assign_src _ _ c' hc' with ⟨c, hcC, huid, hkey2, hval⟩
      rcases mem_uploadPlanCreates.mp hcC with ⟨q, hq, hqnone, rfl⟩
      have hq1 : q.1 = t.1 := by
        have h2 : c'.upload_id = q.1 := huid
        rw [← h2, hP2.1]
      have hq21 : q.2.1 = t.2.1 := by
        have h3 : c'.key = q.2.1 := hkey2
        rw [← h3, hP2.2]
      rw [hq1, hq21, hex] at hqnone
      cases hqnone
    have hfind : (uploadPlanUpdates (uploadTriples facts) db).find?
        (fun g => g.id = f0.id) = some ({ f0 with value := t.2.2 }) := by
      refine find?_unique (mem_uploadPlanUpdates.mpr ⟨t, ht, f0, hex, rfl⟩) (by simp) ?_
      intro g hg hgid
      rcases mem_uploadPlanUpdates.mp hg with ⟨q, hq, f1, hq_ex, rfl⟩
      have hf1 := check_some hq_ex
      have hidq : f1.id = f0.id := by
        have h3 : ({ f1 with value := q.2.2 } : ComputedUploadFact).id = f0.id :=
          of_decide_eq_true hgid
        exact h3
      have hf1f0 : f1 = f0 := List.inj_on_of_nodup_map Hids hf1.1 hf0.1 hidq
      have hqt : q = t := by
        refine List.inj_on_of_nodup_map hnd hq ht ?_
        rw [Prod.mk.injEq]
        constructor
        · rw [← hf1.2.2, hf1f0, hf0.2.2]
        · rw [← hf1.2.1, hf1f0, hf0.2.1]
      rw [hf1f0, hqt]
    rw [hdbfil, hcrefil, List.append_nil]
    simp only [List.map_cons, List.map_nil]
    rw [hfind]
  | none =>
    have hdbfil : db.uploadFacts.filter (fun f => f.upload_id = t.1 ∧ f.key = t.2.1)
        = [] := by
      rw [List.filter_eq_nil_iff]
      intro f hf hP
      have hP2 : f.upload_id = t.1 ∧ f.key = t.2.1 := of_decide_eq_true hP
      exact check_none hex f hf ⟨hP2.2, hP2.1⟩
    have hcmem : mkUploadFact t.1 t.2.1 t.2.2 ∈
        uploadPlanCreates (uploadTriples facts) db :=
      mem_uploadPlanCreates.mpr ⟨t, ht, hex, rfl⟩
    rcases assignU_mem_of_mem db.nextUploadFactId _ _ hcmem with
      ⟨x, hx, hxuid, hxkey, hxval⟩
    have hxuid2 : x.upload_id = t.1 := hxuid
    have hxkey2 : x.key = t.2.1 := hxkey
    have hxval2 : x.value = t.2.2 := hxval
    have hpairsC : ((assignUploadFactIds db.nextUploadFactId
        (uploadPlanCreates (uploadTriples facts) db)).map
          (fun c => (c.upload_id, c.key))).Nodup := by
      rw [assignU_pairs]
      exact uploadPlanCreates_pairs_nodup _ db hnd
    have hcfil : (assignUploadFactIds db.nextUploadFactId
        (uploadPlanCreates (uploadTriples facts) db)).filter
        (fun f => f.upload_id = t.1 ∧ f.key = t.2.1) = [x] := by
      have h1 := filter_key_singleton (fun f : ComputedUploadFact => (f.upload_id, f.key))
        hpairsC hx (by
          show (x.upload_id, x.key) = (t.1, t.2.1)
          rw [hxuid2, hxkey2])
      rw [← h1]
      refine List.filter_congr ?_
      intro f _
      rw [decide_eq_decide, Prod.mk.injEq]
    rw [hdbfil, hcfil, List.nil_append]
    have hnomatch : ∀ g ∈ uploadPlanUpdates (uploadTriples facts) db, g.id ≠ x.id := by
      intro g hg
      rcases mem_uploadPlanUpdates.mp hg with ⟨q, hq, f1, hq_ex, rfl⟩
      have hf1 := check_some hq_ex
      have hlt1 := Hlt f1 hf1.1
      have hxbound := (memU_assign_bounds _ _ x hx).1
      intro he
      have he2 : f1.id = x.id := he
      omega
    have hupd := updElemU_of_no_match (uploadPlanUpdates (uploadTriples facts) db)
      x hnomatch
    simp only [List.map_cons, List.map_nil]
    rw [hupd, hxval2]

theorem extract_upload_facts_WF
    (facts : List (Nat × List (Nat × List (String × Val)))) (db : DB)
    (hnd : ((uploadTriples facts).map (fun t => (t.1, t.2.1))).Nodup)
    (HWF : UploadFactsWF db) :
    UploadFactsWF (extract_upload_facts facts db) := by
  obtain ⟨Hids, Hlt, Hpairs⟩ := HWF
  have hface := extract_upload_facts_uploadFacts facts db
  have hnext : (extract_upload_facts facts db).nextUploadFactId =
      db.nextUploadFactId + (uploadPlanCreates (uploadTriples facts) db).length := by
    rw [extract_upload_facts, uploadFactsPlan_eq]
    rfl
  have hids_pres : ((db.uploadFacts ++ assignUploadFactIds db.nextUploadFactId
      (uploadPlanCreates (uploadTriples facts) db)).map (fun f =>
        match (uploadPlanUpdates (uploadTriples facts) db).find?
            (fun g => g.id = f.id) with
        | some g => { f with value := g.value }
        | none => f)).map (fun f => f.id) =
      (db.uploadFacts ++ assignUploadFactIds db.nextUploadFactId
        (uploadPlanCreates (uploadTriples facts) db)).map (fun f => f.id) := by
    rw [List.map_map]
    refine List.map_congr_left ?_
    intro f _
    exact updElemU_id _ f
  have hpairs_pres : ((db.uploadFacts ++ assignUploadFactIds db.nextUploadFactId
      (uploadPlanCreates (uploadTriples facts) db)).map (fun f =>
        match (uploadPlanUpdates (uploadTriples facts) db).find?
            (fun g => g.id = f.id) with
        | some g => { f with value := g.value }
        | none => f)).map (fun f => (f.upload_id, f.key)) =
      (db.uploadFacts ++ assignUploadFactIds db.nextUploadFactId
        (uploadPlanCreates (uploadTriples facts) db)).map
          (fun f => (f.upload_id, f.key)) := by
    rw [List.map_map]
    refine List.map_congr_left ?_
    intro f _
    have h := updElemU_uid_key (uploadPlanUpdates (uploadTriples facts) db) f
    exact Prod.ext (by exact h.1) (by exact h.2)
  refine ⟨?_, ?_, ?_⟩
  · rw [hface, hids_pres, List.map_append]
    rw [List.nodup_append]
    refine ⟨Hids, assignU_ids_nodup _ _, ?_⟩
    intro a ha hb
    rcases List.mem_map.mp ha with ⟨f, hf, rfl⟩
    rcases List.mem_map.mp hb with ⟨c, hc, hcid⟩
    have h1 := Hlt f hf
    have h2 := (memU_assign_bounds _ _ c hc).1
    omega
  · intro f hf
    rw [hnext]
    rw [hface] at hf
    rcases List.mem_map.mp hf with ⟨f0, hf0, rfl⟩
    have hid0 := updElemU_id (uploadPlanUpdates (uploadTriples facts) db) f0
    rcases List.mem_append.mp hf0 with h | h
    · have := Hlt f0 h
      omega
    · have h2 := (memU_assign_bounds _ _ f0 h).2
      omega
  · rw [hface, hpairs_pres, List.map_append, assignU_pairs]
    rw [List.nodup_append]
    refine ⟨Hpairs, uploadPlanCreates_pairs_nodup _ db hnd, ?_⟩
    intro a ha hb
    rcases List.mem_map.mp hb with ⟨c, hc, hcp⟩
    rcases mem_uploadPlanCreates.mp hc with ⟨q, hq, hqnone, rfl⟩
    have : a = (q.1, q.2.1) := by rw [← hcp]; rfl
    rw [this] at ha
    exact check_none_pair hqnone ha

theorem extract_upload_facts_id
    (facts : List (Nat × List (Nat × List (String × Val)))) (db1 : DB)
    (hnd : ((uploadTriples facts).map (fun t => (t.1, t.2.1))).Nodup)
    (HWF : UploadFactsWF db1)
    (hrec : ReconciledUploads db1 (uploadTriples facts)) :
    extract_upload_facts facts db1 = db1 := by
  obtain ⟨Hids, Hlt, Hpairs⟩ := HWF
  have hexv : ∀ t ∈ uploadTriples facts, ∃ f0,
      check_if_upload_fact_exists t.2.1 t.1 db1 = some f0 ∧ f0.value = t.2.2 := by
    intro t ht
    have h := hrec t ht
    cases hfil : db1.uploadFacts.filter (fun f => f.upload_id = t.1 ∧ f.key = t.2.1) with
    | nil => rw [hfil] at h; cases h
    | cons f0 rest =>
      rw [hfil, List.map_cons] at h
      have hval : f0.value = t.2.2 := (List.cons.inj h).1
      have hmem2 : f0 ∈ db1.uploadFacts.filter
          (fun f => f.upload_id = t.1 ∧ f.key = t.2.1) := by
        rw [hfil]
        exact List.mem_cons_self _ _
      have hmem : f0 ∈ db1.uploadFacts := List.mem_of_mem_filter hmem2
      have hpred : f0.upload_id = t.1 ∧ f0.key = t.2.1 := by
        simpa using List.of_mem_filter hmem2
      refine ⟨f0, ?_, hval⟩
      rw [check_if_upload_fact_exists]
      refine find?_unique hmem (by exact decide_eq_true ⟨hpred.2, hpred.1⟩) ?_
      intro y hy hpy
      have hpy2 : y.key = t.2.1 ∧ y.upload_id = t.1 := of_decide_eq_true hpy
      refine List.inj_on_of_nodup_map Hpairs hy hmem ?_
      rw [Prod.mk.injEq]
      exact ⟨by rw [hpy2.2, hpred.1], by rw [hpy2.1, hpred.2]⟩
  have hC : uploadPlanCreates (uploadTriples facts) db1 = [] := by
    rw [List.eq_nil_iff_forall_not_mem]
    intro c hc
    rcases mem_uploadPlanCreates.mp hc with ⟨t, ht, hnone, _⟩
    rcases hexv t ht with ⟨f0, hsome, _⟩
    rw [hnone] at hsome
    cases hsome
  rw [extract_upload_facts, uploadFactsPlan_eq]
  show bulkUpdateUploadFacts (uploadPlanUpdates (uploadTriples facts) db1)
    (bulkCreateUploadFacts (uploadPlanCreates (uploadTriples facts) db1) db1) = db1
  rw [hC]
  have h1 : bulkCreateUploadFacts [] db1 = db1 := by
    rw [bulkCreateUploadFacts]
    show { db1 with uploadFacts := db1.uploadFacts ++ [],
                    nextUploadFactId := db1.nextUploadFactId } = db1
    rw [List.append_nil]
  rw [h1, bulkUpdateUploadFacts]
  have hmap : db1.uploadFacts.map (fun f =>
      match (uploadPlanUpdates (uploadTriples facts) db1).find?
          (fun g => g.id = f.id) with
      | some g => { f with value := g.value }
      | none => f) = db1.uploadFacts := by
    refine (List.map_congr_left ?_).trans (List.map_id _)
    intro f hf
    by_cases hfp : ∃ t ∈ uploadTriples facts, f.upload_id = t.1 ∧ f.key = t.2.1
    · rcases hfp with ⟨t, ht, hfs, hfk⟩
      rcases hexv t ht with ⟨f0, hsome, hval⟩
      have hf0 := check_some hsome
      have hff0 : f = f0 := by
        refine List.inj_on_of_nodup_map Hpairs hf hf0.1 ?_
        rw [Prod.mk.injEq]
        exact ⟨by rw [hfs, hf0.2.2], by rw [hfk, hf0.2.1]⟩
      have hrow : ({ f0 with value := t.2.2 } : ComputedUploadFact) = f := by
        rw [← hval, hff0]
      have hfmem : f ∈ uploadPlanUpdates (uploadTriples facts) db1 :=
        hrow ▸ mem_uploadPlanUpdates.mpr ⟨t, ht, f0, hsome, rfl⟩
      have hfind : (uploadPlanUpdates (uploadTriples facts) db1).find?
          (fun g => g.id = f.id) = some f := by
        refine find?_unique hfmem (by simp) ?_
        intro g hg hgid
        rcases mem_uploadPlanUpdates.mp hg with ⟨q, hq, f1, hq_ex, rfl⟩
        have hf1 := check_some hq_ex
        have he2 : f1.id = f.id := by
          have h3 : ({ f1 with value := q.2.2 } : ComputedUploadFact).id = f.id :=
            of_decide_eq_true hgid
          exact h3
        have hf1f : f1 = f := List.inj_on_of_nodup_map Hids hf1.1 hf he2
        have hqt : q = t := by
          refine List.inj_on_of_nodup_map hnd hq ht ?_
          rw [Prod.mk.injEq]
          constructor
          · rw [← hf1.2.2, hf1f, hfs]
          · rw [← hf1.2.1, hf1f, hfk]
        rw [hf1f, hqt, ← hff0] at *
        rw [← hrow, hff0]
      show (match (uploadPlanUpdates (uploadTriples facts) db1).find?
          (fun g => g.id = f.id) with
        | some g => ({ f with value := g.value } : ComputedUploadFact)
        | none => f) = f
      rw [hfind]
    · refine updElemU_of_no_match _ _ ?_
      intro g hg
      rcases mem_uploadPlanUpdates.mp hg with ⟨q, hq, f1, hq_ex, rfl⟩
      have hf1 := check_some hq_ex
      intro he
      have he2 : f1.id = f.id := he
      have hf1f : f1 = f := List.inj_on_of_nodup_map Hids hf1.1 hf he2
      exact hfp ⟨q, hq, by rw [← hf1f]; exact ⟨hf1.2.2, hf1.2.1⟩⟩
  rw [hmap]

/-- **C1**: Reconciliation invariant. For every computed fact of either scope
— server-scoped (`extract_server_facts`, for each server `sf.1` and each of
its computed `(key, value)` pairs `kv`) or upload-scoped
(`extract_upload_facts`, for each computed triple `(upload_id, key, value)`)
— after one reconciliation run the database holds exactly one stored fact row
for that `(scope, key)` pair, and its value is the computed (latest) value;
and running the same reconciliation a second time with unchanged inputs
leaves the database state unchanged, i.e. performs zero additional writes.
The hypotheses say the combined extractor outputs are dictionary-shaped
(no scope or key listed twice, as Python dicts guarantee) and that the
stored fact tables satisfy the database's primary-key and `(scope, key)`
uniqueness constraints. -/
theorem c1_reconciliation_invariant
    (sfacts : List (Nat × List (String × Val)))
    (ufacts : List (Nat × List (Nat × List (String × Val))))
    (db : DB)
    (hs1 : (sfacts.map Prod.fst).Nodup)
    (hs2 : ∀ sf ∈ sfacts, (sf.2.map Prod.fst).Nodup)
    (hu : ((uploadTriples ufacts).map (fun t => (t.1, t.2.1))).Nodup)
    (HS : ServerFactsWF db) (HU : UploadFactsWF db) :
    (∀ sf ∈ sfacts, ∀ kv ∈ sf.2,
      (((extract_server_facts sfacts db).serverFacts.filter
        (fun f => f.server_id = sf.1 ∧ f.key = kv.1)).map (fun f => f.value)) = [kv.2]) ∧
    extract_server_facts sfacts (extract_server_facts sfacts db) =
      extract_server_facts sfacts db ∧
    (∀ t ∈ uploadTriples ufacts,
      (((extract_upload_facts ufacts db).uploadFacts.filter
        (fun f => f.upload_id = t.1 ∧ f.key = t.2.1)).map (fun f => f.value)) = [t.2.2]) ∧
    extract_upload_facts ufacts (extract_upload_facts ufacts db) =
      extract_upload_facts ufacts db := by
  have hkeys : ((factsByKey sfacts).map Prod.fst).Nodup :=
    factsByKey_keys_nodup sfacts [] List.nodup_nil
  have hinner : ∀ e ∈ factsByKey sfacts, (e.2.map Prod.fst).Nodup :=
    factsByKey_inner_nodup sfacts [] (by intro e he; cases he)
  refine ⟨?_, ?_, ?_, ?_⟩
  · intro sf hsf kv hkv
    have hget : getFBK (factsByKey sfacts) kv.1 sf.1 = some kv.2 := by
      rw [factsByKey, getFBK_outerFold sfacts [] kv.1 sf.1 hs1 hs2]
      have h1 : dictGet? sfacts sf.1 = some sf.2 :=
        mem_dictGet?_of_nodup hs1 (by obtain ⟨a, b⟩ := sf; exact hsf)
      have h2 : dictGet? sf.2 kv.1 = some kv.2 :=
        mem_dictGet?_of_nodup (hs2 sf hsf) (by obtain ⟨a, b⟩ := kv; exact hkv)
      rw [h1]
      show (dictGet? sf.2 kv.1).or (getFBK [] kv.1 sf.1) = some kv.2
      rw [h2]
      rfl
    cases hsv1 : dictGet? (factsByKey sfacts) kv.1 with
    | none => rw [getFBK, hsv1] at hget; cases hget
    | some svals =>
      rw [getFBK, hsv1, Option.some_bind] at hget
      have hmemE : (kv.1, svals) ∈ factsByKey sfacts := dictGet?_eq_some_mem hsv1
      have hmemP : (sf.1, kv.2) ∈ svals := dictGet?_eq_some_mem hget
      exact foldReconcile_correct (factsByKey sfacts) hkeys hinner db HS
        (kv.1, svals) hmemE (sf.1, kv.2) hmemP
  · exact foldReconcile_id (factsByKey sfacts) (extract_server_facts sfacts db) hinner
      (foldReconcile_WF (factsByKey sfacts) db hinner HS)
      (fun e he => foldReconcile_correct (factsByKey sfacts) hkeys hinner db HS e he)
  · intro t ht
    exact extract_upload_facts_hit ufacts db hu HU ht
  · exact extract_upload_facts_id ufacts (extract_upload_facts ufacts db) hu
      (extract_upload_facts_WF ufacts db hu HU)
      (fun t ht => extract_upload_facts_hit ufacts db hu HU ht)

/-- Witness for C1: a concrete run over one computed server fact and one
computed upload fact, starting from the empty database. -/
theorem c1_witness :
    (∀ sf ∈ [(1, [("os", Val.str "linux")])], ∀ kv ∈ sf.2,
      (((extract_server_facts [(1, [("os", Val.str "linux")])] emptyDB).serverFacts.filter
        (fun f => f.server_id = sf.1 ∧ f.key = kv.1)).map (fun f => f.value)) = [kv.2]) ∧
    extract_server_facts [(1, [("os", Val.str "linux")])]
        (extract_server_facts [(1, [("os", Val.str "linux")])] emptyDB) =
      extract_server_facts [(1, [("os", Val.str "linux")])] emptyDB ∧
    (∀ t ∈ uploadTriples [(1, [(2, [("k", Val.str "v")])])],
      (((extract_upload_facts [(1, [(2, [("k", Val.str "v")])])] emptyDB).uploadFacts.filter
        (fun f => f.upload_id = t.1 ∧ f.key = t.2.1)).map (fun f => f.value)) = [t.2.2]) ∧
    extract_upload_facts [(1, [(2, [("k", Val.str "v")])])]
        (extract_upload_facts [(1, [(2, [("k", Val.str "v")])])] emptyDB) =
      extract_upload_facts [(1, [(2, [("k", Val.str "v")])])] emptyDB :=
  c1_reconciliation_invariant [(1, [("os", Val.str "linux")])]
    [(1, [(2, [("k", Val.str "v")])])] emptyDB
    (by decide) (by decide) (by decide)
    ⟨by decide, by decide, by decide⟩ ⟨by decide, by decide, by decide⟩

end FeedbackPlugin
